import Mathlib

/-!
FTC Logger web UI (src/web/app.js): viewport and statistics engine.

A shallow embedding of the algorithmic core of `src/web/app.js`.

* JavaScript numbers are modelled by exact rationals (`ℚ`) together with the three
  non-finite values `NaN`, `+Infinity`, `-Infinity`; rounding of IEEE doubles is not
  modelled.
* The global mutable `state` object becomes an explicit `State` value that every
  mutating function takes and returns.
* Calls to `draw()` and other DOM effects are dropped: they do not touch the fields
  modelled here.
-/

namespace FTCLogger

/-! ## Data model -/

/-- The rectangle stored in `state.full`: `{ xMin, xMax, yMin, yMax }`. -/
structure Rect where
  xMin : ℚ
  xMax : ℚ
  yMin : ℚ
  yMax : ℚ
  deriving DecidableEq, Repr

/-- The viewport fields of the global `state` object together with `state.full`. -/
structure State where
  xMin : ℚ
  xMax : ℚ
  yMin : ℚ
  yMax : ℚ
  full : Rect
  deriving DecidableEq, Repr

/-! ## Viewport controller -/

/-- Embedding of `clampViewportToFull()` (app.js lines 138-168).  The four spans are read
before any field is written; the two `if`s of each `else` branch run one after the other
on the updated fields. -/
def clampViewportToFull (s : State) : State :=
  let vx := s.xMax - s.xMin
  let vy := s.yMax - s.yMin
  let fx := s.full.xMax - s.full.xMin
  let fy := s.full.yMax - s.full.yMin
  let s1 : State :=
    if vx ≥ fx then { s with xMin := s.full.xMin, xMax := s.full.xMax }
    else
      let sa : State :=
        if s.xMin < s.full.xMin then
          let d := s.full.xMin - s.xMin
          { s with xMin := s.xMin + d, xMax := s.xMax + d }
        else s
      if sa.xMax > sa.full.xMax then
        let d := sa.xMax - sa.full.xMax
        { sa with xMin := sa.xMin - d, xMax := sa.xMax - d }
      else sa
  if vy ≥ fy then { s1 with yMin := s1.full.yMin, yMax := s1.full.yMax }
  else
    let sb : State :=
      if s1.yMin < s1.full.yMin then
        let d := s1.full.yMin - s1.yMin
        { s1 with yMin := s1.yMin + d, yMax := s1.yMax + d }
      else s1
    if sb.yMax > sb.full.yMax then
      let d := sb.yMax - sb.full.yMax
      { sb with yMin := sb.yMin - d, yMax := sb.yMax - d }
    else sb

/-- The assignments of `zoomBy(factor, aboutX = null, aboutY = null)` (app.js lines
170-178) up to, but not including, its call of `clampViewportToFull`.  An omitted or
`null` centre is `none`. -/
def zoomByUnclamped (s : State) (factor : ℚ) (aboutX : Option ℚ) (aboutY : Option ℚ) : State :=
  let cx := match aboutX with
    | none => (s.xMin + s.xMax) / 2
    | some a => a
  let cy := match aboutY with
    | none => (s.yMin + s.yMax) / 2
    | some a => a
  let hx := (s.xMax - s.xMin) / 2 * factor
  let hy := (s.yMax - s.yMin) / 2 * factor
  { s with xMin := cx - hx, xMax := cx + hx, yMin := cy - hy, yMax := cy + hy }

/-- Embedding of `zoomBy` (app.js lines 170-183): rescale about the centre, then clamp. -/
def zoomBy (s : State) (factor : ℚ) (aboutX : Option ℚ) (aboutY : Option ℚ) : State :=
  clampViewportToFull (zoomByUnclamped s factor aboutX aboutY)

/-! ## JavaScript values

The entries of `data.t` and of a series come from `JSON.parse`.  The model covers JSON
numbers (including the non-finite values a literal such as `1e999` parses to), `null`
and booleans.  JSON strings, arrays and objects are not modelled. -/

/-- A JavaScript number: a finite value, `NaN`, `Infinity` or `-Infinity`. -/
inductive JSNum where
  | fin (q : ℚ)
  | nan
  | posInf
  | negInf
  deriving DecidableEq, Repr

/-- A JavaScript value as it can occur in a parsed dataset. -/
inductive JSVal where
  | number (n : JSNum)
  | null
  | bool (b : Bool)
  deriving DecidableEq, Repr

/-- The abstract operation `ToNumber`: `null` is `0`, `true` is `1`, `false` is `0`. -/
def toNumber : JSVal → JSNum
  | .number n => n
  | .null => .fin 0
  | .bool true => .fin 1
  | .bool false => .fin 0

/-- The global function `isFinite(v)`: it converts its argument with `ToNumber` first. -/
def isFinite (v : JSVal) : Bool :=
  match toNumber v with
  | .fin _ => true
  | _ => false

/-- The test `typeof v === "number"`. -/
def isNumber : JSVal → Bool
  | .number _ => true
  | _ => false

/-- The relational operator `a < b` on numbers: `false` whenever an operand is `NaN`. -/
def JSNum.lt : JSNum → JSNum → Bool
  | .nan, _ => false
  | _, .nan => false
  | .fin a, .fin b => decide (a < b)
  | .fin _, .posInf => true
  | .fin _, .negInf => false
  | .posInf, _ => false
  | .negInf, .negInf => false
  | .negInf, _ => true

/-- The operator `a < b` on the modelled values (no strings: both sides go through
`ToNumber`). -/
def jsLt (a b : JSVal) : Bool := JSNum.lt (toNumber a) (toNumber b)

/-- The operator `a > b`. -/
def jsGt (a b : JSVal) : Bool := JSNum.lt (toNumber b) (toNumber a)

/-- The function `Math.min` on two numbers (`NaN` if either is `NaN`). -/
def mathMin : JSNum → JSNum → JSNum
  | .nan, _ => .nan
  | _, .nan => .nan
  | .negInf, _ => .negInf
  | _, .negInf => .negInf
  | .posInf, b => b
  | a, .posInf => a
  | .fin a, .fin b => .fin (min a b)

/-- The function `Math.max` on two numbers (`NaN` if either is `NaN`). -/
def mathMax : JSNum → JSNum → JSNum
  | .nan, _ => .nan
  | _, .nan => .nan
  | .posInf, _ => .posInf
  | _, .posInf => .posInf
  | .negInf, b => b
  | a, .negInf => a
  | .fin a, .fin b => .fin (max a b)

/-- A finite number as a value. -/
abbrev JSVal.ofRat (q : ℚ) : JSVal := .number (.fin q)

/-- The dataset `state.data`: `{ t: [...], series: { name: [...] } }`. -/
structure Dataset where
  t : List JSVal
  series : List (String × List JSVal)
  deriving Repr

/-- The expression `state.data?.t || []`. -/
def dataT : Option Dataset → List JSVal
  | some d => d.t
  | none => []

/-- The expression `(state.data?.series || {})[name] || []`. -/
def dataSeries : Option Dataset → String → List JSVal
  | some d, name => (d.series.lookup name).getD []
  | none, _ => []

/-! ## Statistics and regression engine -/

/-- The two guards that open the body of every sample loop (app.js lines 603-604,
645-646, 668-669):

    if (!isFinite(x) || !isFinite(y)) continue;
    if (x < xLo || x > xHi) continue;

The result is `none` when the pair is skipped and otherwise the numbers that `x` and `y`
stand for in the arithmetic of the loop body. -/
def sample (xLo xHi : JSVal) (x y : JSVal) : Option (ℚ × ℚ) :=
  match toNumber x, toNumber y with
  | .fin xq, .fin yq => if jsLt x xLo || jsGt x xHi then none else some (xq, yq)
  | _, _ => none

/-- The list of pairs `(t[i], arr[i])`, `i < Math.min(t.length, arr.length)`, that pass
the guards, in index order. -/
def contributing (t arr : List JSVal) (xLo xHi : JSVal) : List (ℚ × ℚ) :=
  (List.zip t arr).filterMap (fun p => sample xLo xHi p.1 p.2)

/-- The result object of `computeRegression`: `{ m, b, r2, xMin, xMax }`. -/
structure Regression where
  m : ℚ
  b : ℚ
  r2 : ℚ
  xMin : JSVal
  xMax : JSVal
  deriving DecidableEq, Repr

/-- The local variables of the first loop of `computeRegression`. -/
structure RegAcc where
  n : ℕ
  sx : ℚ
  sy : ℚ
  sxx : ℚ
  sxy : ℚ
  yBar : ℚ
  deriving DecidableEq, Repr

/-- One iteration of the first loop of `computeRegression` (app.js lines 642-655). -/
def regStep (xLo xHi : JSVal) (a : RegAcc) (p : JSVal × JSVal) : RegAcc :=
  match sample xLo xHi p.1 p.2 with
  | none => a
  | some (x, y) =>
    let n := a.n + 1
    let sy := a.sy + y
    { n := n, sx := a.sx + x, sy := sy, sxx := a.sxx + x * x, sxy := a.sxy + x * y,
      yBar := sy / n }

/-- One iteration of the second loop of `computeRegression` (app.js lines 665-675); the
accumulator is `(ssTot, ssRes)`. -/
def resStep (xLo xHi : JSVal) (m b yBar : ℚ) (a : ℚ × ℚ) (p : JSVal × JSVal) : ℚ × ℚ :=
  match sample xLo xHi p.1 p.2 with
  | none => a
  | some (x, y) =>
    let yHat := m * x + b
    (a.1 + (y - yBar) * (y - yBar), a.2 + (y - yHat) * (y - yHat))

/-- The first loop of `computeRegression`, `for (let i = 0; i < nMax; i++)` with
`nMax = Math.min(t.length, arr.length)`, started from `n = sx = sy = sxx = sxy = yBar = 0`. -/
def regLoop (t arr : List JSVal) (xLo xHi : JSVal) : RegAcc :=
  (List.zip t arr).foldl (regStep xLo xHi) ⟨0, 0, 0, 0, 0, 0⟩

/-- The second loop of `computeRegression`, started from `ssTot = ssRes = 0`. -/
def resLoop (t arr : List JSVal) (xLo xHi : JSVal) (m b yBar : ℚ) : ℚ × ℚ :=
  (List.zip t arr).foldl (resStep xLo xHi m b yBar) (0, 0)

/-- Embedding of `computeRegression(t, arr, range)` (app.js lines 633-678).  The literal
`1e-12` is taken as the exact rational `1 / 10 ^ 12`. -/
def computeRegression (t arr : List JSVal) (range : JSVal × JSVal) : Option Regression :=
  let xLo := range.1
  let xHi := range.2
  let a := regLoop t arr xLo xHi
  let denom := a.n * a.sxx - a.sx * a.sx
  if a.n < 2 ∨ |denom| < 1 / 10 ^ 12 then none
  else
    let m := (a.n * a.sxy - a.sx * a.sy) / denom
    let b := (a.sy - m * a.sx) / a.n
    let ss := resLoop t arr xLo xHi m b a.yBar
    let r2 := if ss.1 > 0 then 1 - ss.2 / ss.1 else 1
    some { m := m, b := b, r2 := r2, xMin := xLo, xMax := xHi }

/-- The local variables of the loop of `computeStatsForSeries`. -/
structure StatsAcc where
  count : ℕ
  mean : ℚ
  m2 : ℚ
  min : JSNum
  max : JSNum
  xMin : JSVal
  xMax : JSVal
  deriving DecidableEq, Repr

/-- The initial values `count = 0, mean = 0, m2 = 0, min = Infinity, max = -Infinity,
xMin = null, xMax = null`. -/
def StatsAcc.init : StatsAcc :=
  { count := 0, mean := 0, m2 := 0, min := .posInf, max := .negInf, xMin := .null,
    xMax := .null }

/-- One iteration of the loop of `computeStatsForSeries` (app.js lines 600-615).  The
Welford update is `delta = y - mean; mean += delta / count; m2 += delta * (y - mean)`.
The comparison `xMin == null` holds exactly for `null`; `xMin = x` stores the array
element itself. -/
def statsStep (xLo xHi : JSVal) (a : StatsAcc) (p : JSVal × JSVal) : StatsAcc :=
  match sample xLo xHi p.1 p.2 with
  | none => a
  | some (_, y) =>
    let count := a.count + 1
    let delta := y - a.mean
    let mean := a.mean + delta / count
    let m2 := a.m2 + delta * (y - mean)
    { count := count, mean := mean, m2 := m2,
      min := mathMin a.min (.fin y), max := mathMax a.max (.fin y),
      xMin := if a.xMin = .null ∨ jsLt p.1 a.xMin then p.1 else a.xMin,
      xMax := if a.xMax = .null ∨ jsGt p.1 a.xMax then p.1 else a.xMax }

/-- The loop of `computeStatsForSeries`, `for (let i = 0; i < nMax; i++)` with
`nMax = Math.min(t.length, arr.length)`. -/
def statsLoop (t arr : List JSVal) (xLo xHi : JSVal) : StatsAcc :=
  (List.zip t arr).foldl (statsStep xLo xHi) StatsAcc.init

/-- The stat record `{ name, count, mean, min, max, std, range, regression }`.  The field
`stdSq` holds `m2 / count`, the argument of `Math.sqrt` in `std = Math.sqrt(m2 / count)`:
the square root itself is not rational. -/
structure StatRecord where
  name : String
  count : ℕ
  mean : ℚ
  min : JSNum
  max : JSNum
  stdSq : ℚ
  range : JSVal × JSVal
  regression : Option Regression
  deriving DecidableEq, Repr

/-- Embedding of `computeStatsForSeries(name, range)` (app.js lines 585-631); the fields
`state.data` and `state.regressionEnabled` it reads are parameters. -/
def computeStatsForSeries (data : Option Dataset) (regressionEnabled : Bool) (name : String)
    (range : JSVal × JSVal) : Option StatRecord :=
  let t := dataT data
  let arr := dataSeries data name
  let xLo := range.1
  let xHi := range.2
  let a := statsLoop t arr xLo xHi
  if a.count = 0 then none
  else
    let regression := if regressionEnabled then computeRegression t arr (xLo, xHi) else none
    some { name := name, count := a.count, mean := a.mean, min := a.min, max := a.max,
           stdSq := a.m2 / a.count, range := (a.xMin, a.xMax), regression := regression }

/-- Embedding of `getStatsRange()` (app.js lines 578-583); the fields `state.selectionRange`,
`state.data`, `state.xMin` and `state.xMax` it reads are parameters. -/
def getStatsRange (selectionRange : Option (JSVal × JSVal)) (data : Option Dataset)
    (xMin xMax : ℚ) : JSVal × JSVal :=
  match selectionRange with
  | some r => r
  | none =>
    match (dataT data).head?, (dataT data).getLast? with
    | some first, some last => (first, last)
    | _, _ => (.ofRat xMin, .ofRat xMax)

/-- Embedding of `updateStats()` (app.js lines 456-468): the value it stores in
`state.stats`.  `names.map(...).filter(Boolean)` drops the `null` results; the set
`state.visible` is given by its list of members. -/
def updateStats (data : Option Dataset) (visible : List String) (regressionEnabled : Bool)
    (selectionRange : Option (JSVal × JSVal)) (xMin xMax : ℚ) : List StatRecord :=
  match data with
  | none => []
  | some d =>
    let names := (d.series.map Prod.fst).filter (fun n => decide (n ∈ visible))
    let range := getStatsRange selectionRange data xMin xMax
    names.filterMap (fun name => computeStatsForSeries data regressionEnabled name range)

/-- Embedding of `niceStep(span)` (app.js lines 217-228).  For `raw > 0` the exponent
`Math.floor(Math.log10(raw))` is the integer `Int.log 10 raw`, the largest `k` with
`10 ^ k ≤ raw`.  For `raw = 0`, `Math.log10` gives `-Infinity`, `p` is `0`, `m` is `NaN`,
every comparison fails, and the result is `10 * 0`.  For `raw < 0`, `Math.log10` gives
`NaN`, which propagates to the result. -/
def niceStep (span : ℚ) : JSNum :=
  let raw := span / 6
  if raw < 0 then .nan
  else if raw = 0 then .fin 0
  else
    let p : ℚ := 10 ^ (Int.log 10 raw)
    let m := raw / p
    let nice : ℚ := if m < 3 / 2 then 1 else if m < 3 then 2 else if m < 7 then 5 else 10
    .fin (nice * p)

/-! ## Coordinate transform -/

/-- Embedding of `dataToPx(x, y, w, h)` (app.js lines 114-118).  With a zero span
JavaScript divides by zero and yields `NaN` or an infinity; the rational model is meant
for non-zero spans only. -/
def dataToPx (s : State) (x y w h : ℚ) : ℚ × ℚ :=
  let px := (x - s.xMin) / (s.xMax - s.xMin) * w
  let py := h - (y - s.yMin) / (s.yMax - s.yMin) * h
  (px, py)

/-- Embedding of `pxToData(px, py, w, h)` (app.js lines 119-123); meant for non-zero `w`
and `h`. -/
def pxToData (s : State) (px py w h : ℚ) : ℚ × ℚ :=
  let x := s.xMin + (px / w) * (s.xMax - s.xMin)
  let y := s.yMin + ((h - py) / h) * (s.yMax - s.yMin)
  (x, y)

/-- The fields of the object returned by `getPlotMetrics(dpr)`. -/
structure PlotMetrics where
  w : ℚ
  h : ℚ
  marginL : ℚ
  marginT : ℚ
  marginR : ℚ
  marginB : ℚ
  plotW : ℚ
  plotH : ℚ
  deriving DecidableEq, Repr

/-- Embedding of `getPlotMetrics(dpr)` (app.js lines 125-136); the canvas size
`canvas.width`, `canvas.height` is given by `w` and `h`. -/
def getPlotMetrics (dpr w h : ℚ) : PlotMetrics :=
  let marginL := 54 * dpr
  let marginT := 4 * dpr
  let marginR := 8 * dpr
  let marginB := 26 * dpr
  let plotW := w - marginL - marginR
  let plotH := h - marginT - marginB
  { w := w, h := h, marginL := marginL, marginT := marginT, marginR := marginR,
    marginB := marginB, plotW := plotW, plotH := plotH }

/-! ## Application state -/

/-- The values of `state.tool`. -/
inductive Tool where
  | pan
  | select
  deriving DecidableEq, Repr

/-- The object `state.dragRect = { x, y, w, h }`, in canvas pixels. -/
structure DragRect where
  x : ℚ
  y : ℚ
  w : ℚ
  h : ℚ
  deriving DecidableEq, Repr

/-- The global `state` object as far as the selection, zoom and load code reads and
writes it.  `view` holds `xMin, xMax, yMin, yMax` and `full`; `visible` lists the members
of the set `state.visible`; `selectionRange` is `null` or a pair of numbers. -/
structure AppState where
  view : State
  data : Option Dataset
  visible : List String
  tool : Tool
  dragging : Bool
  dragRect : Option DragRect
  selectionRange : Option (ℚ × ℚ)
  regressionEnabled : Bool
  stats : List StatRecord
  deriving Repr

/-- The initial value of the `state` object (app.js lines 12-34). -/
def AppState.init : AppState :=
  { view := ⟨0, 1, -1, 1, ⟨0, 1, -1, 1⟩⟩, data := none, visible := [], tool := .select,
    dragging := false, dragRect := none, selectionRange := none, regressionEnabled := false,
    stats := [] }

/-! ## Full extents -/

/-- The object literal `{ xMin, xMax, yMin, yMax }` that `computeFullExtents` assigns to
`state.full`.  `xMin` and `xMax` are array elements of `t` stored as they are. -/
structure Extents where
  xMin : JSVal
  xMax : JSVal
  yMin : ℚ
  yMax : ℚ
  deriving DecidableEq, Repr

/-- One iteration of the inner loop of `computeFullExtents` (app.js lines 197-201) on the
pair `(yMin, yMax)`:

    if (typeof v !== "number" || !isFinite(v)) continue;
    yMin = Math.min(yMin, v);
    yMax = Math.max(yMax, v); -/
def extentsStep (acc : JSNum × JSNum) (v : JSVal) : JSNum × JSNum :=
  if !isNumber v || !isFinite v then acc
  else (mathMin acc.1 (toNumber v), mathMax acc.2 (toNumber v))

/-- Embedding of `computeFullExtents()` (app.js lines 185-208): the value it assigns to
`state.full`.  The literal `0.08` is the exact rational `8 / 100`; `e || 1` is `1` exactly
when `e` is `0`.  After the loops `yMin` and `yMax` are both finite or still the initial
`Infinity` and `-Infinity`, which the `isFinite` test replaces by `-1` and `1`. -/
def computeFullExtents (u : AppState) : Extents :=
  let t := dataT u.data
  match t.head?, t.getLast? with
  | some first, some last =>
    let series := match u.data with
      | some d => d.series
      | none => []
    let acc := series.foldl (fun acc p => p.2.foldl extentsStep acc) (JSNum.posInf, JSNum.negInf)
    let y : ℚ × ℚ := match acc with
      | (.fin lo, .fin hi) => (lo, hi)
      | _ => (-1, 1)
    let yPad := if (y.2 - y.1) * (8 / 100) = 0 then 1 else (y.2 - y.1) * (8 / 100)
    { xMin := first, xMax := last, yMin := y.1 - yPad, yMax := y.2 + yPad }
  | _, _ => { xMin := .ofRat 0, xMax := .ofRat 1, yMin := -1, yMax := 1 }

/-- The rectangle that the viewport arithmetic sees in `state.full`: defined when both
ends of the X range are finite numbers. -/
def Extents.toRect? (e : Extents) : Option Rect :=
  match e.xMin, e.xMax with
  | .number (.fin a), .number (.fin b) => some ⟨a, b, e.yMin, e.yMax⟩
  | _, _ => none

/-- Embedding of `setViewportToFull()` (app.js lines 210-214). -/
def setViewportToFull (s : State) : State :=
  { s with xMin := s.full.xMin, xMax := s.full.xMax, yMin := s.full.yMin, yMax := s.full.yMax }

/-- The two calls `computeFullExtents(); setViewportToFull();` made by `loadData` (app.js
lines 896-897) once `state.data` holds the new dataset.  Defined when both ends of the X
range are finite numbers. -/
def loadViewport (u : AppState) : Option AppState :=
  (computeFullExtents u).toRect?.map
    (fun r => { u with view := setViewportToFull { u.view with full := r } })

/-- The finite numeric entries of an array: the values `v` with `typeof v === "number"`
that are finite. -/
def finiteNumbers (arr : List JSVal) : List ℚ :=
  arr.filterMap (fun v =>
    match v with
    | .number (.fin q) => some q
    | _ => none)

/-- The finite numeric samples of all series of the loaded dataset, in iteration order. -/
def finiteSamples (u : AppState) : List ℚ :=
  match u.data with
  | some d => d.series.flatMap (fun p => finiteNumbers p.2)
  | none => []

/-- A pair `(yMin, yMax)` of running extremes describes the values satisfying `P`: it is
still `(Infinity, -Infinity)` when there is none, and otherwise holds the least and the
greatest of them. -/
def Bounds (acc : JSNum × JSNum) (P : ℚ → Prop) : Prop :=
  (acc = (JSNum.posInf, JSNum.negInf) ∧ ∀ q, ¬ P q) ∨
  ∃ lo hi, acc = (JSNum.fin lo, JSNum.fin hi) ∧ P lo ∧ P hi ∧ ∀ q, P q → lo ≤ q ∧ q ≤ hi

/-! ## Selection -/

/-- One iteration of the inner loop of `zoomToSelection` (app.js lines 1122-1130) on the
pair `(yMin, yMax)`. -/
def zoomStep (xMin xMax : JSVal) (acc : JSNum × JSNum) (p : JSVal × JSVal) : JSNum × JSNum :=
  match sample xMin xMax p.1 p.2 with
  | none => acc
  | some (_, y) => (mathMin acc.1 (.fin y), mathMax acc.2 (.fin y))

/-- The two nested loops of `zoomToSelection` over the visible series names. -/
def zoomLoop (d : Dataset) (visible : List String) (xMin xMax : ℚ) : JSNum × JSNum :=
  ((d.series.map Prod.fst).filter (fun n => decide (n ∈ visible))).foldl
    (fun acc name =>
      (List.zip d.t ((d.series.lookup name).getD [])).foldl
        (zoomStep (.ofRat xMin) (.ofRat xMax)) acc)
    (JSNum.posInf, JSNum.negInf)

/-- Embedding of `zoomToSelection()` (app.js lines 1109-1143). -/
def zoomToSelection (u : AppState) : AppState :=
  match u.selectionRange, u.data with
  | some (xMin, xMax), some d =>
    if ¬ (xMax > xMin) then u
    else
      let v1 : State := { u.view with xMin := xMin, xMax := xMax }
      let v2 : State := match zoomLoop d u.visible xMin xMax with
        | (.fin yMin, .fin yMax) =>
          if yMax > yMin then
            let pad := if (yMax - yMin) * (8 / 100) = 0 then 1 else (yMax - yMin) * (8 / 100)
            { v1 with yMin := yMin - pad, yMax := yMax + pad }
          else v1
        | _ => v1
      { u with view := v2 }
  | _, _ => u

/-- The argument that `updateStats` and `getStatsRange` read from `state.selectionRange`. -/
def AppState.statsRange (u : AppState) : Option (JSVal × JSVal) :=
  u.selectionRange.map (fun r => (JSVal.ofRat r.1, JSVal.ofRat r.2))

/-- The assignment `state.stats = ...` of `updateStats()` on the application state. -/
def AppState.refreshStats (u : AppState) : AppState :=
  { u with
    stats := (updateStats u.data u.visible u.regressionEnabled u.statsRange u.view.xMin
      u.view.xMax) }

/-- Embedding of `clearSelectionAndReset()` (app.js lines 1200-1204). -/
def clearSelectionAndReset (u : AppState) : AppState :=
  let u1 := { u with selectionRange := none }
  let u2 := { u1 with view := setViewportToFull u1.view }
  u2.refreshStats

/-- Embedding of the `pointerup` handler of `installCanvasInteractions` (app.js lines
1007-1051); `dpr` is `window.devicePixelRatio || 1` and `w`, `h` the canvas size read by
`getPlotMetrics`. -/
def pointerUp (u : AppState) (dpr w h : ℚ) : AppState :=
  if !u.dragging then u
  else
    let u0 := { u with dragging := false }
    let metrics := getPlotMetrics dpr w h
    let marginL := metrics.marginL
    let marginT := metrics.marginT
    let plotW := metrics.plotW
    let plotH := metrics.plotH
    match u0.tool, u0.dragRect with
    | .select, some r =>
      let xA := max 0 (r.x - marginL)
      let yA := max 0 (r.y - marginT)
      let xB := min plotW ((r.x + r.w) - marginL)
      let yB := min plotH ((r.y + r.h) - marginT)
      let sel : Option (ℚ × ℚ) :=
        if xB - xA > 4 ∧ yB - yA > 4 then
          let x1 := u0.view.xMin + (xA / plotW) * (u0.view.xMax - u0.view.xMin)
          let x2 := u0.view.xMin + (xB / plotW) * (u0.view.xMax - u0.view.xMin)
          some (min x1 x2, max x1 x2)
        else none
      let u1 := { u0 with selectionRange := sel, dragRect := none }
      if u1.selectionRange.isSome then u1.refreshStats
      else clearSelectionAndReset u1
    | _, _ =>
      let u1 := { u0 with dragRect := none }
      if u1.tool = .select then clearSelectionAndReset u1 else u1

/-- A loaded state used in examples: `t = [0, 1, 2, 3]`, one visible series
`y = [1, 5, 2, 4]`, the selection `[1, 2]`, and the viewport at the full extents
`[0, 3]` by `[1 - 0.32, 5 + 0.32]`. -/
def AppState.sampleRun : AppState :=
  { AppState.init with
    data := some ⟨[.ofRat 0, .ofRat 1, .ofRat 2, .ofRat 3],
      [("y", [.ofRat 1, .ofRat 5, .ofRat 2, .ofRat 4])]⟩
    visible := ["y"]
    selectionRange := some (1, 2)
    view := ⟨0, 3, 17 / 25, 133 / 25, ⟨0, 3, 17 / 25, 133 / 25⟩⟩ }

/-! ## Formatting -/

/-- The string `x.toFixed(1)` of a finite number `x`: with `n` the integer nearest to
`10 * |x|` (the larger one on a tie), the decimal digits of `n` with a point before the
last one, after a minus sign when `x < 0`.  For `|x| ≥ 10 ^ 21` the method returns
`Number::toString(x)` instead, a string in exponential notation whose digits depend on the
binary representation; that case is `none`. -/
def toFixed1 (x : ℚ) : Option String :=
  if |x| ≥ 10 ^ 21 then none
  else
    let n := ⌊|x| * 10 + 1 / 2⌋₊
    let m := toString (n / 10) ++ "." ++ toString (n % 10)
    some (if x < 0 then "-" ++ m else m)

/-- The string conversion in `bytes + " B"` for an integer below `10 ^ 21` in absolute
value: its decimal digits.  Other numbers are `none` (their digits depend on the binary
representation). -/
def numberToString (q : ℚ) : Option String :=
  if q.den = 1 ∧ |q| < 10 ^ 21 then
    some (if q < 0 then "-" ++ toString q.num.natAbs else toString q.num.natAbs)
  else none

/-- Embedding of `formatBytes(bytes)` (app.js lines 766-771). -/
def formatBytes (bytes : JSVal) : Option String :=
  if !isNumber bytes || !isFinite bytes then some "—"
  else
    match toNumber bytes with
    | .fin q =>
      if q < 1024 then (numberToString q).map (fun s => s ++ " B")
      else if q < 1024 * 1024 then (toFixed1 (q / 1024)).map (fun s => s ++ " KB")
      else (toFixed1 (q / (1024 * 1024))).map (fun s => s ++ " MB")
    | _ => some "—"

/-! ## Theorems: viewport clamp -/

/-- C1: after `clampViewportToFull` the viewport lies inside the full extents on both
axes and its span on each axis is at most the span of the extents. -/
theorem clampViewportToFull_within (s : State) :
    let r := clampViewportToFull s
    (s.full.xMin ≤ r.xMin ∧ r.xMax ≤ s.full.xMax ∧
        r.xMax - r.xMin ≤ s.full.xMax - s.full.xMin) ∧
    (s.full.yMin ≤ r.yMin ∧ r.yMax ≤ s.full.yMax ∧
        r.yMax - r.yMin ≤ s.full.yMax - s.full.yMin) := by
  unfold clampViewportToFull
  simp only []
  split_ifs <;> simp only [] at * <;> refine ⟨⟨?_, ?_, ?_⟩, ?_, ?_, ?_⟩ <;> linarith


/-- C2: per axis, `clampViewportToFull` snaps the interval to the extents when the
pre-clamp span is at least the extents span; otherwise it keeps the span (a pure
translation) and leaves the interval untouched when it already lay inside the extents. -/
theorem clampViewportToFull_axis (s : State) :
    let r := clampViewportToFull s
    ((s.xMax - s.xMin ≥ s.full.xMax - s.full.xMin →
        r.xMin = s.full.xMin ∧ r.xMax = s.full.xMax) ∧
     (s.xMax - s.xMin < s.full.xMax - s.full.xMin →
        r.xMax - r.xMin = s.xMax - s.xMin ∧
        (s.full.xMin ≤ s.xMin → s.xMax ≤ s.full.xMax → r.xMin = s.xMin ∧ r.xMax = s.xMax))) ∧
    ((s.yMax - s.yMin ≥ s.full.yMax - s.full.yMin →
        r.yMin = s.full.yMin ∧ r.yMax = s.full.yMax) ∧
     (s.yMax - s.yMin < s.full.yMax - s.full.yMin →
        r.yMax - r.yMin = s.yMax - s.yMin ∧
        (s.full.yMin ≤ s.yMin → s.yMax ≤ s.full.yMax → r.yMin = s.yMin ∧ r.yMax = s.yMax))) := by
  unfold clampViewportToFull
  simp only []
  split_ifs <;> simp only [] at * <;>
    refine ⟨⟨fun h1 => ⟨?_, ?_⟩, fun h1 => ⟨?_, fun h2 h3 => ⟨?_, ?_⟩⟩⟩,
      ⟨fun h1 => ⟨?_, ?_⟩, fun h1 => ⟨?_, fun h2 h3 => ⟨?_, ?_⟩⟩⟩⟩ <;>
    first | rfl | linarith | dsimp only

/-- C2 at a concrete state: the X span 12 exceeds the extents span 10 and is snapped; the
Y interval [8, 12] hangs over the upper edge and is translated to [6, 10]. -/
theorem clampViewportToFull_axis_witness :
    (clampViewportToFull ⟨-1, 11, 8, 12, ⟨0, 10, 0, 10⟩⟩).xMin = 0 ∧
    (clampViewportToFull ⟨-1, 11, 8, 12, ⟨0, 10, 0, 10⟩⟩).xMax = 10 ∧
    (clampViewportToFull ⟨-1, 11, 8, 12, ⟨0, 10, 0, 10⟩⟩).yMax -
      (clampViewportToFull ⟨-1, 11, 8, 12, ⟨0, 10, 0, 10⟩⟩).yMin = 12 - 8 := by
  have h := clampViewportToFull_axis ⟨-1, 11, 8, 12, ⟨0, 10, 0, 10⟩⟩
  simp only [] at h
  exact ⟨(h.1.1 (by norm_num)).1, (h.1.1 (by norm_num)).2, (h.2.2 (by norm_num)).1⟩

/-! ## Theorems: zoom -/

/-- C9 as stated fails: with the viewport [0,2] x [0,2] inside the extents
[-10,10] x [-10,10], factor 1/2 and centre (1/2, 1/2) passed to both calls, neither clamp
changes anything, yet the final viewport is [-1/2, 3/2] x [-1/2, 3/2]. -/
theorem zoomBy_offcentre_counterexample :
    (0 : ℚ) < 1 / 2 ∧
    clampViewportToFull (zoomByUnclamped ⟨0, 2, 0, 2, ⟨-10, 10, -10, 10⟩⟩ (1 / 2)
        (some (1 / 2)) (some (1 / 2))) =
      zoomByUnclamped ⟨0, 2, 0, 2, ⟨-10, 10, -10, 10⟩⟩ (1 / 2) (some (1 / 2)) (some (1 / 2)) ∧
    clampViewportToFull (zoomByUnclamped
        (zoomBy ⟨0, 2, 0, 2, ⟨-10, 10, -10, 10⟩⟩ (1 / 2) (some (1 / 2)) (some (1 / 2)))
        (1 / (1 / 2)) (some (1 / 2)) (some (1 / 2))) =
      zoomByUnclamped
        (zoomBy ⟨0, 2, 0, 2, ⟨-10, 10, -10, 10⟩⟩ (1 / 2) (some (1 / 2)) (some (1 / 2)))
        (1 / (1 / 2)) (some (1 / 2)) (some (1 / 2)) ∧
    zoomBy (zoomBy ⟨0, 2, 0, 2, ⟨-10, 10, -10, 10⟩⟩ (1 / 2) (some (1 / 2)) (some (1 / 2)))
        (1 / (1 / 2)) (some (1 / 2)) (some (1 / 2)) =
      ⟨-1 / 2, 3 / 2, -1 / 2, 3 / 2, ⟨-10, 10, -10, 10⟩⟩ ∧
    zoomBy (zoomBy ⟨0, 2, 0, 2, ⟨-10, 10, -10, 10⟩⟩ (1 / 2) (some (1 / 2)) (some (1 / 2)))
        (1 / (1 / 2)) (some (1 / 2)) (some (1 / 2)) ≠
      ⟨0, 2, 0, 2, ⟨-10, 10, -10, 10⟩⟩ := by
  refine ⟨by norm_num, ?_, ?_, ?_, ?_⟩ <;>
    norm_num [zoomBy, zoomByUnclamped, clampViewportToFull]

theorem zoomByUnclamped_roundtrip (s : State) (f : ℚ) (ax ay : Option ℚ) (hf : f ≠ 0) :
    zoomByUnclamped (zoomByUnclamped s f ax ay) (1 / f) ax ay =
      { s with
        xMin := ax.getD ((s.xMin + s.xMax) / 2) - (s.xMax - s.xMin) / 2
        xMax := ax.getD ((s.xMin + s.xMax) / 2) + (s.xMax - s.xMin) / 2
        yMin := ay.getD ((s.yMin + s.yMax) / 2) - (s.yMax - s.yMin) / 2
        yMax := ay.getD ((s.yMin + s.yMax) / 2) + (s.yMax - s.yMin) / 2 } := by
  have hm : f * (1 / f) = 1 := mul_one_div_cancel hf
  cases ax <;> cases ay <;> simp only [zoomByUnclamped, Option.getD, State.mk.injEq] <;>
    refine ⟨?_, ?_, ?_, ?_, trivial⟩
  all_goals first
    | linear_combination (-((s.xMax - s.xMin) / 2)) * hm
    | linear_combination ((s.xMax - s.xMin) / 2) * hm
    | linear_combination (-((s.yMax - s.yMin) / 2)) * hm
    | linear_combination ((s.yMax - s.yMin) / 2) * hm

/-- C9 (amended): when neither clamp changes anything, `zoomBy(f, cx, cy)` followed by
`zoomBy(1/f, cx, cy)` restores the spans of the viewport and centres it on the centre
used by the first call, which is `(cx, cy)` when given and the viewport centre when
omitted.  The viewport is therefore restored exactly when each centre coordinate is
omitted or equals the corresponding coordinate of the viewport centre. -/
theorem zoomBy_roundtrip (s : State) (f : ℚ) (ax ay : Option ℚ) (hf : 0 < f)
    (h1 : clampViewportToFull (zoomByUnclamped s f ax ay) = zoomByUnclamped s f ax ay)
    (h2 : clampViewportToFull (zoomByUnclamped (zoomBy s f ax ay) (1 / f) ax ay) =
      zoomByUnclamped (zoomBy s f ax ay) (1 / f) ax ay) :
    zoomBy (zoomBy s f ax ay) (1 / f) ax ay =
      { s with
        xMin := ax.getD ((s.xMin + s.xMax) / 2) - (s.xMax - s.xMin) / 2
        xMax := ax.getD ((s.xMin + s.xMax) / 2) + (s.xMax - s.xMin) / 2
        yMin := ay.getD ((s.yMin + s.yMax) / 2) - (s.yMax - s.yMin) / 2
        yMax := ay.getD ((s.yMin + s.yMax) / 2) + (s.yMax - s.yMin) / 2 } ∧
    ((ax = none ∨ ax = some ((s.xMin + s.xMax) / 2)) →
      (ay = none ∨ ay = some ((s.yMin + s.yMax) / 2)) →
      zoomBy (zoomBy s f ax ay) (1 / f) ax ay = s) := by
  have e : zoomBy (zoomBy s f ax ay) (1 / f) ax ay =
      zoomByUnclamped (zoomByUnclamped s f ax ay) (1 / f) ax ay := by
    have e1 : zoomBy s f ax ay = zoomByUnclamped s f ax ay := h1
    rw [e1] at h2
    rw [zoomBy, e1, h2]
  rw [e, zoomByUnclamped_roundtrip s f ax ay (ne_of_gt hf)]
  refine ⟨rfl, fun hx hy => ?_⟩
  have kx : ax.getD ((s.xMin + s.xMax) / 2) = (s.xMin + s.xMax) / 2 := by
    rcases hx with h | h <;> simp [h]
  have ky : ay.getD ((s.yMin + s.yMax) / 2) = (s.yMin + s.yMax) / 2 := by
    rcases hy with h | h <;> simp [h]
  rw [kx, ky]
  cases s
  simp only [State.mk.injEq]
  refine ⟨?_, ?_, ?_, ?_, trivial⟩ <;> ring

/-- C9 (amended) at the viewport [0,2] x [0,2] inside the extents [-10,10] x [-10,10],
factor 1/2, centre omitted in both calls. -/
theorem zoomBy_roundtrip_witness :
    zoomBy (zoomBy ⟨0, 2, 0, 2, ⟨-10, 10, -10, 10⟩⟩ (1 / 2) none none) (1 / (1 / 2)) none none =
      ⟨0, 2, 0, 2, ⟨-10, 10, -10, 10⟩⟩ :=
  (zoomBy_roundtrip ⟨0, 2, 0, 2, ⟨-10, 10, -10, 10⟩⟩ (1 / 2) none none (by norm_num)
    (by norm_num [zoomBy, zoomByUnclamped, clampViewportToFull])
    (by norm_num [zoomBy, zoomByUnclamped, clampViewportToFull])).2 (Or.inl rfl) (Or.inl rfl)

/-! ## Theorems: tick planner -/

/-- The exponent used by `niceStep` is the exact value of `Math.floor(Math.log10(raw))`:
for a positive rational `raw`, the floor of the real base-10 logarithm is `Int.log 10 raw`. -/
theorem floor_log10_eq (raw : ℚ) (h : 0 < raw) :
    ⌊Real.logb 10 (raw : ℝ)⌋ = Int.log 10 raw := by
  have hr : (0 : ℝ) < (raw : ℝ) := by exact_mod_cast h
  have e := Real.floor_logb_natCast (b := 10) (r := (raw : ℝ)) hr.le
  have e2 : Int.log 10 (raw : ℝ) = Int.log 10 raw := by
    apply le_antisymm
    · rw [← Int.zpow_le_iff_le_log (by norm_num) h]
      have := Int.zpow_log_le_self (b := 10) (r := (raw : ℝ)) (by norm_num) hr
      have h2 : ((((10 : ℕ) : ℚ) ^ Int.log 10 (raw : ℝ) : ℚ) : ℝ) ≤ (raw : ℝ) := by
        push_cast
        simpa using this
      exact Rat.cast_le.mp h2
    · rw [← Int.zpow_le_iff_le_log (by norm_num) hr]
      have := Int.zpow_log_le_self (b := 10) (r := raw) (by norm_num) h
      have h2 : ((((10 : ℕ) : ℚ) ^ Int.log 10 raw : ℚ) : ℝ) ≤ (raw : ℝ) := Rat.cast_le.mpr this
      push_cast at h2
      simpa using h2
  rw [← e2, ← e]
  norm_num

/-- C10: for every positive span, `niceStep(span)` is `k * 10 ^ n` with `k` one of 1, 2, 5
and `n` an integer. -/
theorem niceStep_form (span : ℚ) (h : 0 < span) :
    ∃ k : ℚ, (k = 1 ∨ k = 2 ∨ k = 5) ∧ ∃ n : ℤ, niceStep span = .fin (k * 10 ^ n) := by
  have hraw : 0 < span / 6 := by positivity
  unfold niceStep
  simp only [not_lt.mpr hraw.le, hraw.ne', if_false]
  split_ifs
  · exact ⟨1, Or.inl rfl, _, rfl⟩
  · exact ⟨2, Or.inr (Or.inl rfl), _, rfl⟩
  · exact ⟨5, Or.inr (Or.inr rfl), _, rfl⟩
  · refine ⟨1, Or.inl rfl, Int.log 10 (span / 6) + 1, ?_⟩
    rw [zpow_add_one₀ (by norm_num : (10 : ℚ) ≠ 0)]
    ring_nf

/-- C10 at span 60: `niceStep(60) = 10`, which is `1 * 10 ^ 1`. -/
theorem niceStep_form_witness :
    niceStep 60 = .fin 10 ∧
    ∃ k : ℚ, (k = 1 ∨ k = 2 ∨ k = 5) ∧ ∃ n : ℤ, niceStep 60 = .fin (k * 10 ^ n) := by
  refine ⟨?_, niceStep_form 60 (by norm_num)⟩
  have e : Int.log 10 ((60 : ℚ) / 6) = 1 := by
    have : ((60 : ℚ) / 6) = ((10 : ℕ) : ℚ) ^ (1 : ℤ) := by norm_num
    rw [this, Int.log_zpow (by norm_num)]
  unfold niceStep
  simp only [e]
  norm_num

/-! ## Theorems: the sample guards -/

theorem sample_eq_some_iff (xLo xHi x y : JSVal) (xq yq : ℚ) :
    sample xLo xHi x y = some (xq, yq) ↔
      toNumber x = .fin xq ∧ toNumber y = .fin yq ∧ jsLt x xLo = false ∧ jsGt x xHi = false := by
  unfold sample
  cases hx : toNumber x <;> cases hy : toNumber y <;> cases h1 : jsLt x xLo <;>
    cases h2 : jsGt x xHi <;> simp

theorem sample_isSome_iff (xLo xHi x y : JSVal) :
    (sample xLo xHi x y).isSome = true ↔
      isFinite x = true ∧ isFinite y = true ∧ jsLt x xLo = false ∧ jsGt x xHi = false := by
  unfold sample isFinite
  cases hx : toNumber x <;> cases hy : toNumber y <;> cases h1 : jsLt x xLo <;>
    cases h2 : jsGt x xHi <;> simp

/-- The guards on finite numbers: the pair passes exactly when `lo ≤ x ≤ hi`. -/
theorem sample_ofRat (lo hi x y : ℚ) :
    sample (.ofRat lo) (.ofRat hi) (.ofRat x) (.ofRat y) =
      if x < lo ∨ hi < x then none else some (x, y) := by
  simp [sample, toNumber, jsLt, jsGt, JSNum.lt, JSVal.ofRat]

/-- The guards on a `null` sample next to a finite timestamp: `isFinite(null)` is `true`
and the sample enters the arithmetic as `0`. -/
theorem sample_ofRat_null (lo hi x : ℚ) :
    sample (.ofRat lo) (.ofRat hi) (.ofRat x) .null =
      if x < lo ∨ hi < x then none else some (x, 0) := by
  simp [sample, toNumber, jsLt, jsGt, JSNum.lt, JSVal.ofRat]

/-- A pair in which a value is a non-finite number (`NaN`, `Infinity`, `-Infinity`) is
skipped by the guards. -/
theorem sample_of_not_isFinite (xLo xHi x y : JSVal)
    (h : isFinite x = false ∨ isFinite y = false) : sample xLo xHi x y = none := by
  have := sample_isSome_iff xLo xHi x y
  cases hs : sample xLo xHi x y with
  | none => rfl
  | some v =>
    rw [hs] at this
    have h2 := this.mp rfl
    rcases h with h | h
    · rw [h2.1] at h; cases h
    · rw [h2.2.1] at h; cases h

/-! ## Theorems: Welford accumulation -/

/-- Loop invariant of `computeStatsForSeries`: after the pairs of `l`, `count` is the
number of contributing samples, `mean * count` is their sum and `m2` is the sum of their
squares minus `mean` times their sum. -/
theorem statsFold_spec (xLo xHi : JSVal) (l : List (JSVal × JSVal)) :
    (l.foldl (statsStep xLo xHi) StatsAcc.init).count =
      (l.filterMap (fun p => sample xLo xHi p.1 p.2)).length ∧
    (l.foldl (statsStep xLo xHi) StatsAcc.init).mean *
        ((l.filterMap (fun p => sample xLo xHi p.1 p.2)).length : ℚ) =
      ((l.filterMap (fun p => sample xLo xHi p.1 p.2)).map Prod.snd).sum ∧
    (l.foldl (statsStep xLo xHi) StatsAcc.init).m2 =
      ((l.filterMap (fun p => sample xLo xHi p.1 p.2)).map (fun p => p.2 * p.2)).sum -
        (l.foldl (statsStep xLo xHi) StatsAcc.init).mean *
          ((l.filterMap (fun p => sample xLo xHi p.1 p.2)).map Prod.snd).sum := by
  induction l using List.reverseRecOn with
  | nil => simp [StatsAcc.init]
  | append_singleton l p ih =>
    obtain ⟨ih1, ih2, ih3⟩ := ih
    rw [List.foldl_append, List.filterMap_append]
    simp only [List.foldl_cons, List.foldl_nil, List.filterMap_cons, List.filterMap_nil]
    cases hs : sample xLo xHi p.1 p.2 with
    | none =>
      simp only [statsStep, hs, List.append_nil]
      exact ⟨ih1, ih2, ih3⟩
    | some v =>
      obtain ⟨x, y⟩ := v
      simp only [statsStep, hs, List.length_append, List.length_singleton, List.map_append,
        List.map_cons, List.map_nil, List.sum_append, List.sum_cons, List.sum_nil, add_zero]
      rw [ih1]
      generalize l.foldl (statsStep xLo xHi) StatsAcc.init = a at ih2 ih3 ⊢
      generalize (l.filterMap (fun p => sample xLo xHi p.1 p.2)).length = c at ih2 ⊢
      generalize ((l.filterMap (fun p => sample xLo xHi p.1 p.2)).map Prod.snd).sum = S
        at ih2 ih3 ⊢
      have hc1 : ((c : ℚ) + 1) ≠ 0 := by positivity
      obtain ⟨mu, hdef, hmu⟩ : ∃ mu : ℚ, mu = a.mean + (y - a.mean) / ((c : ℚ) + 1) ∧
          mu * ((c : ℚ) + 1) = a.mean * c + y := by
        refine ⟨_, rfl, ?_⟩
        field_simp
        ring
      push_cast
      rw [← hdef, ih3]
      refine ⟨rfl, ?_, ?_⟩
      · linear_combination hmu + ih2
      · linear_combination a.mean * hmu + (a.mean - mu) * ih2

/-- The sum of squared deviations from any constant `c`, expanded. -/
theorem sum_sq_dev (l : List (ℚ × ℚ)) (c : ℚ) :
    (l.map (fun p => (p.2 - c) ^ 2)).sum =
      (l.map (fun p => p.2 * p.2)).sum - 2 * c * (l.map Prod.snd).sum + l.length * c ^ 2 := by
  induction l with
  | nil => simp
  | cons p l ih =>
    simp only [List.map_cons, List.sum_cons, List.length_cons, ih]
    push_cast
    ring

theorem sum_sq_dev_nonneg (l : List (ℚ × ℚ)) (c : ℚ) :
    0 ≤ (l.map (fun p => (p.2 - c) ^ 2)).sum := by
  apply List.sum_nonneg
  intro z hz
  obtain ⟨p, -, rfl⟩ := List.mem_map.mp hz
  positivity

/-- The Welford accumulators hold the two-pass values once a sample has contributed. -/
theorem statsLoop_two_pass (t arr : List JSVal) (xLo xHi : JSVal)
    (hne : contributing t arr xLo xHi ≠ []) :
    (statsLoop t arr xLo xHi).count = (contributing t arr xLo xHi).length ∧
    (statsLoop t arr xLo xHi).count ≠ 0 ∧
    (statsLoop t arr xLo xHi).mean =
      ((contributing t arr xLo xHi).map Prod.snd).sum / ((statsLoop t arr xLo xHi).count : ℚ) ∧
    (statsLoop t arr xLo xHi).m2 =
      ((contributing t arr xLo xHi).map
        (fun p => (p.2 - (statsLoop t arr xLo xHi).mean) ^ 2)).sum := by
  obtain ⟨h1, h2, h3⟩ := statsFold_spec xLo xHi (List.zip t arr)
  have hlen : (contributing t arr xLo xHi).length ≠ 0 := by
    simpa [List.length_eq_zero] using hne
  rw [sum_sq_dev]
  unfold statsLoop
  unfold contributing at hlen ⊢
  rw [h1]
  generalize (List.zip t arr).foldl (statsStep xLo xHi) StatsAcc.init = a at h1 h2 h3 ⊢
  generalize (List.zip t arr).filterMap (fun p => sample xLo xHi p.1 p.2) = c
    at h1 h2 h3 hlen ⊢
  have hc : (c.length : ℚ) ≠ 0 := by exact_mod_cast hlen
  refine ⟨rfl, hlen, ?_, ?_⟩
  · rw [eq_div_iff hc]; exact h2
  · linear_combination h3 - a.mean * h2

/-- The record returned by `computeStatsForSeries` when the loop has counted a sample. -/
theorem computeStatsForSeries_of_count_ne_zero (data : Option Dataset) (reg : Bool)
    (name : String) (range : JSVal × JSVal)
    (h : (statsLoop (dataT data) (dataSeries data name) range.1 range.2).count ≠ 0) :
    computeStatsForSeries data reg name range =
      some { name := name,
             count := (statsLoop (dataT data) (dataSeries data name) range.1 range.2).count,
             mean := (statsLoop (dataT data) (dataSeries data name) range.1 range.2).mean,
             min := (statsLoop (dataT data) (dataSeries data name) range.1 range.2).min,
             max := (statsLoop (dataT data) (dataSeries data name) range.1 range.2).max,
             stdSq := (statsLoop (dataT data) (dataSeries data name) range.1 range.2).m2 /
               (statsLoop (dataT data) (dataSeries data name) range.1 range.2).count,
             range := ((statsLoop (dataT data) (dataSeries data name) range.1 range.2).xMin,
               (statsLoop (dataT data) (dataSeries data name) range.1 range.2).xMax),
             regression := if reg then
                 computeRegression (dataT data) (dataSeries data name) (range.1, range.2)
               else none } := by
  simp only [computeStatsForSeries, if_neg h]

/-- C3: when at least one sample contributes, the record of `computeStatsForSeries` holds
the two-pass values: `count` is the number of contributing samples, `mean` is their sum
divided by `count`, and `m2 / count` (the square of `std`, non-negative) is the sum of the
squared deviations from that mean divided by `count`. -/
theorem computeStatsForSeries_two_pass (data : Option Dataset) (reg : Bool) (name : String)
    (range : JSVal × JSVal)
    (h : contributing (dataT data) (dataSeries data name) range.1 range.2 ≠ []) :
    ∃ r, computeStatsForSeries data reg name range = some r ∧
      r.count = (contributing (dataT data) (dataSeries data name) range.1 range.2).length ∧
      r.mean = ((contributing (dataT data) (dataSeries data name) range.1 range.2).map
          Prod.snd).sum / r.count ∧
      r.stdSq = ((contributing (dataT data) (dataSeries data name) range.1 range.2).map
          (fun p => (p.2 - r.mean) ^ 2)).sum / r.count ∧
      0 ≤ r.stdSq := by
  obtain ⟨h1, hcount, hmean, hsq⟩ :=
    statsLoop_two_pass (dataT data) (dataSeries data name) range.1 range.2 h
  refine ⟨_, computeStatsForSeries_of_count_ne_zero data reg name range hcount, h1, hmean,
    ?_, ?_⟩
  · simp only []; rw [hsq]
  · simp only []; rw [hsq]
    exact div_nonneg (sum_sq_dev_nonneg _ _) (Nat.cast_nonneg _)

/-- C3 on `t = [0,1,2,3]`, `y = [1,2,3,4]` over the full range `[0,3]`: all four samples
contribute, `count = 4`, `mean = 5/2` and `std ^ 2 = 5/4`. -/
theorem computeStatsForSeries_two_pass_witness :
    contributing [.ofRat 0, .ofRat 1, .ofRat 2, .ofRat 3]
        [.ofRat 1, .ofRat 2, .ofRat 3, .ofRat 4] (.ofRat 0) (.ofRat 3) =
      [(0, 1), (1, 2), (2, 3), (3, 4)] ∧
    ∃ r, computeStatsForSeries
        (some ⟨[.ofRat 0, .ofRat 1, .ofRat 2, .ofRat 3],
          [("y", [.ofRat 1, .ofRat 2, .ofRat 3, .ofRat 4])]⟩)
        false "y" (.ofRat 0, .ofRat 3) = some r ∧
      r.count = 4 ∧ r.mean = 5 / 2 ∧ r.stdSq = 5 / 4 := by
  have hc : contributing [.ofRat 0, .ofRat 1, .ofRat 2, .ofRat 3]
        [.ofRat 1, .ofRat 2, .ofRat 3, .ofRat 4] (.ofRat 0) (.ofRat 3) =
      [(0, 1), (1, 2), (2, 3), (3, 4)] := by
    norm_num [contributing, List.filterMap_cons, sample_ofRat]
  have hd : dataSeries (some ⟨[.ofRat 0, .ofRat 1, .ofRat 2, .ofRat 3],
      [("y", [.ofRat 1, .ofRat 2, .ofRat 3, .ofRat 4])]⟩) "y" =
      [.ofRat 1, .ofRat 2, .ofRat 3, .ofRat 4] := by
    simp [dataSeries, List.lookup]
  obtain ⟨r, hr, h1, h2, h3, -⟩ := computeStatsForSeries_two_pass
    (some ⟨[.ofRat 0, .ofRat 1, .ofRat 2, .ofRat 3],
      [("y", [.ofRat 1, .ofRat 2, .ofRat 3, .ofRat 4])]⟩)
    false "y" (.ofRat 0, .ofRat 3) (by rw [hd]; simp only [dataT]; rw [hc]; simp)
  rw [hd] at h1 h2 h3
  simp only [dataT] at h1 h2 h3
  rw [hc] at h1 h2 h3
  simp only [List.length_cons, List.length_nil] at h1
  have hm : r.mean = 5 / 2 := by rw [h2, h1]; norm_num
  refine ⟨hc, r, hr, h1, hm, ?_⟩
  rw [h3, hm, h1]
  norm_num

/-! ## Theorems: which samples are counted -/

/-- C5 at `t = [0, 1]`, series `[null, 4]`, range `[0, 1]`, regression enabled: the pair
`(0, null)` is not skipped.  It is counted and enters as the value `0`, so the record has
`count = 2`, `mean = 2`, `min = 0`, `std ^ 2 = 4` and a fitted line `m = 4, b = 0`, whereas
the dataset with that pair removed gives `count = 1`, `mean = 4`, `min = 4`, `std ^ 2 = 0` and
no regression. -/
theorem computeStatsForSeries_null_sample :
    computeStatsForSeries (some ⟨[.ofRat 0, .ofRat 1], [("y", [.null, .ofRat 4])]⟩)
        true "y" (.ofRat 0, .ofRat 1) =
      some { name := "y", count := 2, mean := 2, min := .fin 0, max := .fin 4, stdSq := 4,
             range := (.ofRat 0, .ofRat 1),
             regression := some { m := 4, b := 0, r2 := 1, xMin := .ofRat 0, xMax := .ofRat 1 } } ∧
    computeStatsForSeries (some ⟨[.ofRat 1], [("y", [.ofRat 4])]⟩)
        true "y" (.ofRat 0, .ofRat 1) =
      some { name := "y", count := 1, mean := 4, min := .fin 4, max := .fin 4, stdSq := 0,
             range := (.ofRat 1, .ofRat 1), regression := none } := by
  constructor
  · norm_num [computeStatsForSeries, statsLoop, dataT, dataSeries, List.lookup, statsStep,
      sample_ofRat, sample_ofRat_null, StatsAcc.init, mathMin, mathMax, computeRegression,
      regLoop, resLoop, regStep, resStep, jsLt, jsGt, toNumber, JSNum.lt]
    exact fun h => JSVal.noConfusion h
  · norm_num [computeStatsForSeries, statsLoop, dataT, dataSeries, List.lookup, statsStep,
      sample_ofRat, sample_ofRat_null, StatsAcc.init, mathMin, mathMax, computeRegression,
      regLoop, resLoop, regStep, resStep, jsLt, jsGt, toNumber, JSNum.lt]

/-! ## Theorems: regression -/

/-- Loop invariant of the first loop of `computeRegression`: the accumulators are the
sums over the contributing samples, and `yBar * n` is the sum of the `y`. -/
theorem regLoop_spec (t arr : List JSVal) (xLo xHi : JSVal) :
    (regLoop t arr xLo xHi).n = (contributing t arr xLo xHi).length ∧
    (regLoop t arr xLo xHi).sx = ((contributing t arr xLo xHi).map Prod.fst).sum ∧
    (regLoop t arr xLo xHi).sy = ((contributing t arr xLo xHi).map Prod.snd).sum ∧
    (regLoop t arr xLo xHi).sxx = ((contributing t arr xLo xHi).map (fun p => p.1 * p.1)).sum ∧
    (regLoop t arr xLo xHi).sxy = ((contributing t arr xLo xHi).map (fun p => p.1 * p.2)).sum ∧
    (regLoop t arr xLo xHi).yBar * ((contributing t arr xLo xHi).length : ℚ) =
      ((contributing t arr xLo xHi).map Prod.snd).sum := by
  unfold regLoop contributing
  induction (List.zip t arr) using List.reverseRecOn with
  | nil => simp
  | append_singleton l p ih =>
    obtain ⟨i1, i2, i3, i4, i5, i6⟩ := ih
    rw [List.foldl_append, List.filterMap_append]
    simp only [List.foldl_cons, List.foldl_nil, List.filterMap_cons, List.filterMap_nil]
    cases hs : sample xLo xHi p.1 p.2 with
    | none =>
      simp only [regStep, hs, List.append_nil]
      exact ⟨i1, i2, i3, i4, i5, i6⟩
    | some v =>
      obtain ⟨x, y⟩ := v
      simp only [regStep, hs, List.length_append, List.length_singleton, List.map_append,
        List.map_cons, List.map_nil, List.sum_append, List.sum_cons, List.sum_nil, add_zero]
      rw [i1, i2, i3, i4, i5]
      refine ⟨rfl, rfl, rfl, rfl, rfl, ?_⟩
      have hc1 : (((l.filterMap (fun p => sample xLo xHi p.1 p.2)).length : ℚ) + 1) ≠ 0 := by
        positivity
      push_cast
      field_simp

/-- The second loop of `computeRegression` returns the total and the residual sums of
squares over the contributing samples. -/
theorem resLoop_spec (t arr : List JSVal) (xLo xHi : JSVal) (m b yBar : ℚ) :
    resLoop t arr xLo xHi m b yBar =
      (((contributing t arr xLo xHi).map (fun p => (p.2 - yBar) * (p.2 - yBar))).sum,
       ((contributing t arr xLo xHi).map
          (fun p => (p.2 - (m * p.1 + b)) * (p.2 - (m * p.1 + b)))).sum) := by
  unfold resLoop contributing
  induction (List.zip t arr) using List.reverseRecOn with
  | nil => simp
  | append_singleton l p ih =>
    rw [List.foldl_append, List.filterMap_append, ih]
    simp only [List.foldl_cons, List.foldl_nil, List.filterMap_cons, List.filterMap_nil]
    cases hs : sample xLo xHi p.1 p.2 with
    | none => simp [resStep, hs]
    | some v =>
      obtain ⟨x, y⟩ := v
      simp [resStep, hs]

/-- What a non-null result of `computeRegression` says about the accumulators: at least
two samples, a denominator of absolute value at least `1e-12`, and the formulas for `m`
and `b`. -/
theorem computeRegression_eq_some (t arr : List JSVal) (range : JSVal × JSVal) (r : Regression)
    (h : computeRegression t arr range = some r) :
    2 ≤ (regLoop t arr range.1 range.2).n ∧
    1 / 10 ^ 12 ≤ |((regLoop t arr range.1 range.2).n : ℚ) * (regLoop t arr range.1 range.2).sxx -
        (regLoop t arr range.1 range.2).sx * (regLoop t arr range.1 range.2).sx| ∧
    r.m = (((regLoop t arr range.1 range.2).n : ℚ) * (regLoop t arr range.1 range.2).sxy -
        (regLoop t arr range.1 range.2).sx * (regLoop t arr range.1 range.2).sy) /
      (((regLoop t arr range.1 range.2).n : ℚ) * (regLoop t arr range.1 range.2).sxx -
        (regLoop t arr range.1 range.2).sx * (regLoop t arr range.1 range.2).sx) ∧
    r.b = ((regLoop t arr range.1 range.2).sy - r.m * (regLoop t arr range.1 range.2).sx) /
      ((regLoop t arr range.1 range.2).n : ℚ) := by
  by_cases hc : (regLoop t arr range.1 range.2).n < 2 ∨
      |((regLoop t arr range.1 range.2).n : ℚ) * (regLoop t arr range.1 range.2).sxx -
        (regLoop t arr range.1 range.2).sx * (regLoop t arr range.1 range.2).sx| < 1 / 10 ^ 12
  · simp only [computeRegression, if_pos hc, reduceCtorEq] at h
  · simp only [computeRegression, if_neg hc, Option.some.injEq] at h
    simp only [not_or, not_lt] at hc
    subst h
    exact ⟨hc.1, hc.2, rfl, rfl⟩

/-- The residual sum of squares of the line `y = m * x + b`, expanded in the five sums. -/
theorem ssr_expand (c : List (ℚ × ℚ)) (m b : ℝ) :
    (c.map (fun p => ((p.2 : ℝ) - (m * (p.1 : ℝ) + b)) ^ 2)).sum =
      (((c.map (fun p => p.2 * p.2)).sum : ℚ) : ℝ)
        - 2 * m * (((c.map (fun p => p.1 * p.2)).sum : ℚ) : ℝ)
        - 2 * b * (((c.map Prod.snd).sum : ℚ) : ℝ)
        + m ^ 2 * (((c.map (fun p => p.1 * p.1)).sum : ℚ) : ℝ)
        + 2 * m * b * (((c.map Prod.fst).sum : ℚ) : ℝ)
        + (c.length : ℝ) * b ^ 2 := by
  induction c with
  | nil => simp
  | cons p c ih =>
    simp only [List.map_cons, List.sum_cons, List.length_cons, ih]
    push_cast
    ring

/-- The quadratic form of the design matrix is a sum of squares, hence non-negative. -/
theorem design_form_nonneg (c : List (ℚ × ℚ)) (dm db : ℝ) :
    0 ≤ dm ^ 2 * (((c.map (fun p => p.1 * p.1)).sum : ℚ) : ℝ)
        + 2 * dm * db * (((c.map Prod.fst).sum : ℚ) : ℝ)
        + (c.length : ℝ) * db ^ 2 := by
  have e : (c.map (fun p => (dm * (p.1 : ℝ) + db) ^ 2)).sum =
      dm ^ 2 * (((c.map (fun p => p.1 * p.1)).sum : ℚ) : ℝ)
        + 2 * dm * db * (((c.map Prod.fst).sum : ℚ) : ℝ)
        + (c.length : ℝ) * db ^ 2 := by
    induction c with
    | nil => simp
    | cons p c ih =>
      simp only [List.map_cons, List.sum_cons, List.length_cons, ih]
      push_cast
      ring
  rw [← e]
  apply List.sum_nonneg
  intro z hz
  obtain ⟨p, -, rfl⟩ := List.mem_map.mp hz
  positivity

/-- The normal equations: a non-null result of `computeRegression` satisfies
`m * Σx² + b * Σx = Σxy` and `m * Σx + n * b = Σy` over the contributing samples. -/
theorem computeRegression_normal (t arr : List JSVal) (range : JSVal × JSVal) (r : Regression)
    (h : computeRegression t arr range = some r) :
    r.m * ((contributing t arr range.1 range.2).map (fun p => p.1 * p.1)).sum +
        r.b * ((contributing t arr range.1 range.2).map Prod.fst).sum =
      ((contributing t arr range.1 range.2).map (fun p => p.1 * p.2)).sum ∧
    r.m * ((contributing t arr range.1 range.2).map Prod.fst).sum +
        ((contributing t arr range.1 range.2).length : ℚ) * r.b =
      ((contributing t arr range.1 range.2).map Prod.snd).sum := by
  obtain ⟨hn, hden, hm, hb⟩ := computeRegression_eq_some t arr range r h
  obtain ⟨i1, i2, i3, i4, i5, -⟩ := regLoop_spec t arr range.1 range.2
  simp only [i1, i2, i3, i4, i5] at hm hb hden hn
  generalize (contributing t arr range.1 range.2) = c at *
  have hn0 : (c.length : ℚ) ≠ 0 := by
    have : 0 < c.length := by omega
    positivity
  have hden0 : (c.length : ℚ) * (c.map (fun p => p.1 * p.1)).sum -
      (c.map Prod.fst).sum * (c.map Prod.fst).sum ≠ 0 := by
    intro h0
    rw [h0, abs_zero] at hden
    norm_num at hden
  rw [eq_div_iff hden0] at hm
  rw [eq_div_iff hn0] at hb
  have n2 : r.m * (c.map Prod.fst).sum + (c.length : ℚ) * r.b = (c.map Prod.snd).sum := by
    linear_combination hb
  refine ⟨?_, n2⟩
  apply mul_left_cancel₀ hn0
  linear_combination hm + (c.map Prod.fst).sum * n2

/-- C6: the line fitted by `computeRegression` minimises the sum of squared residuals over
the contributing samples among all real lines `y = m' * x + b'`. -/
theorem computeRegression_least_squares (t arr : List JSVal) (range : JSVal × JSVal)
    (r : Regression) (h : computeRegression t arr range = some r) (m' b' : ℝ) :
    ((contributing t arr range.1 range.2).map
        (fun p => ((p.2 : ℝ) - ((r.m : ℝ) * (p.1 : ℝ) + (r.b : ℝ))) ^ 2)).sum ≤
      ((contributing t arr range.1 range.2).map
        (fun p => ((p.2 : ℝ) - (m' * (p.1 : ℝ) + b')) ^ 2)).sum := by
  obtain ⟨n1, n2⟩ := computeRegression_normal t arr range r h
  rw [ssr_expand, ssr_expand]
  have hq := design_form_nonneg (contributing t arr range.1 range.2) (m' - r.m) (b' - r.b)
  generalize (contributing t arr range.1 range.2) = c at *
  have n1r : (r.m : ℝ) * (((c.map (fun p => p.1 * p.1)).sum : ℚ) : ℝ) +
      (r.b : ℝ) * (((c.map Prod.fst).sum : ℚ) : ℝ) =
      (((c.map (fun p => p.1 * p.2)).sum : ℚ) : ℝ) := by exact_mod_cast n1
  have n2r : (r.m : ℝ) * (((c.map Prod.fst).sum : ℚ) : ℝ) + (c.length : ℝ) * (r.b : ℝ) =
      (((c.map Prod.snd).sum : ℚ) : ℝ) := by exact_mod_cast n2
  have p1 := congrArg (fun z => (m' - (r.m : ℝ)) * z) n1r
  have p2 := congrArg (fun z => (b' - (r.b : ℝ)) * z) n2r
  simp only [] at p1 p2
  linarith [hq, p1, p2]

/-- C6 on `t = [0, 1, 2]`, `y = [0, 1, 1]` over `[0, 2]`: the fit is `m = 1/2`, `b = 1/6`,
and its residual sum of squares is at most that of the line `y = 1`. -/
theorem computeRegression_least_squares_witness :
    computeRegression [.ofRat 0, .ofRat 1, .ofRat 2] [.ofRat 0, .ofRat 1, .ofRat 1]
        (.ofRat 0, .ofRat 2) =
      some { m := 1 / 2, b := 1 / 6, r2 := 3 / 4, xMin := .ofRat 0, xMax := .ofRat 2 } ∧
    ((contributing [.ofRat 0, .ofRat 1, .ofRat 2] [.ofRat 0, .ofRat 1, .ofRat 1]
        (.ofRat 0) (.ofRat 2)).map
        (fun p => ((p.2 : ℝ) - (((1 / 2 : ℚ) : ℝ) * (p.1 : ℝ) + ((1 / 6 : ℚ) : ℝ))) ^ 2)).sum ≤
      ((contributing [.ofRat 0, .ofRat 1, .ofRat 2] [.ofRat 0, .ofRat 1, .ofRat 1]
        (.ofRat 0) (.ofRat 2)).map
        (fun p => ((p.2 : ℝ) - (0 * (p.1 : ℝ) + 1)) ^ 2)).sum := by
  have heval : computeRegression [.ofRat 0, .ofRat 1, .ofRat 2]
      [.ofRat 0, .ofRat 1, .ofRat 1] (.ofRat 0, .ofRat 2) =
      some { m := 1 / 2, b := 1 / 6, r2 := 3 / 4, xMin := .ofRat 0, xMax := .ofRat 2 } := by
    norm_num [computeRegression, regLoop, resLoop, regStep, resStep, sample_ofRat]
  exact ⟨heval, computeRegression_least_squares _ _ _ _ heval 0 1⟩

/-- The coefficient of determination and the domain of a non-null result of
`computeRegression`, in terms of the sums of squares over the contributing samples. -/
theorem computeRegression_r2 (t arr : List JSVal) (range : JSVal × JSVal) (r : Regression)
    (h : computeRegression t arr range = some r) :
    r.r2 =
      (if ((contributing t arr range.1 range.2).map
            (fun p => (p.2 - (regLoop t arr range.1 range.2).yBar) *
              (p.2 - (regLoop t arr range.1 range.2).yBar))).sum > 0 then
        1 - ((contributing t arr range.1 range.2).map
            (fun p => (p.2 - (r.m * p.1 + r.b)) * (p.2 - (r.m * p.1 + r.b)))).sum /
          ((contributing t arr range.1 range.2).map
            (fun p => (p.2 - (regLoop t arr range.1 range.2).yBar) *
              (p.2 - (regLoop t arr range.1 range.2).yBar))).sum
      else 1) ∧
    r.xMin = range.1 ∧ r.xMax = range.2 := by
  by_cases hc : (regLoop t arr range.1 range.2).n < 2 ∨
      |((regLoop t arr range.1 range.2).n : ℚ) * (regLoop t arr range.1 range.2).sxx -
        (regLoop t arr range.1 range.2).sx * (regLoop t arr range.1 range.2).sx| < 1 / 10 ^ 12
  · simp only [computeRegression, if_pos hc, reduceCtorEq] at h
  · simp only [computeRegression, if_neg hc, Option.some.injEq, resLoop_spec] at h
    subst h
    exact ⟨rfl, rfl, rfl⟩

/-- C16: for non-zero spans and a non-zero plot size, `pxToData` and `dataToPx` are
inverse to each other in both directions, and the Y axis is inverted: `(xMin, yMin)` maps
to `(0, h)` and `(xMax, yMax)` to `(w, 0)`. -/
theorem pxToData_dataToPx (s : State) (w h : ℚ) (hx : s.xMax ≠ s.xMin) (hy : s.yMax ≠ s.yMin)
    (hw : w ≠ 0) (hh : h ≠ 0) :
    (∀ x y, pxToData s (dataToPx s x y w h).1 (dataToPx s x y w h).2 w h = (x, y)) ∧
    (∀ px py, dataToPx s (pxToData s px py w h).1 (pxToData s px py w h).2 w h = (px, py)) ∧
    dataToPx s s.xMin s.yMin w h = (0, h) ∧
    dataToPx s s.xMax s.yMax w h = (w, 0) := by
  have hx0 : s.xMax - s.xMin ≠ 0 := sub_ne_zero.mpr hx
  have hy0 : s.yMax - s.yMin ≠ 0 := sub_ne_zero.mpr hy
  refine ⟨fun x y => ?_, fun px py => ?_, ?_, ?_⟩
  · simp only [pxToData, dataToPx, Prod.mk.injEq]
    constructor
    · field_simp
      ring
    · field_simp
      ring
  · simp only [pxToData, dataToPx, Prod.mk.injEq]
    constructor
    · field_simp
      ring
    · field_simp
      ring
  · simp only [dataToPx, sub_self, zero_div, zero_mul, sub_zero]
  · simp only [dataToPx, div_self hx0, div_self hy0, one_mul, sub_self]

/-- C16 on the viewport `[0, 10] x [-1, 1]` and a plot of 200 by 100 pixels: the data
point `(5, 0)` maps to the pixel `(100, 50)` and back. -/
theorem pxToData_dataToPx_witness :
    dataToPx ⟨0, 10, -1, 1, ⟨0, 10, -1, 1⟩⟩ 5 0 200 100 = (100, 50) ∧
    pxToData ⟨0, 10, -1, 1, ⟨0, 10, -1, 1⟩⟩ 100 50 200 100 = (5, 0) := by
  have h := (pxToData_dataToPx ⟨0, 10, -1, 1, ⟨0, 10, -1, 1⟩⟩ 200 100 (by norm_num) (by norm_num)
    (by norm_num) (by norm_num)).1 5 0
  have e : dataToPx ⟨0, 10, -1, 1, ⟨0, 10, -1, 1⟩⟩ 5 0 200 100 = (100, 50) := by
    norm_num [dataToPx]
  rw [e] at h
  exact ⟨e, h⟩

/-! ## Theorems: coefficient of determination -/

/-- The residual sum of squares as the second loop accumulates it (products, rational
arithmetic), expanded in the five sums. -/
theorem ssRes_expand (c : List (ℚ × ℚ)) (m b : ℚ) :
    (c.map (fun p => (p.2 - (m * p.1 + b)) * (p.2 - (m * p.1 + b)))).sum =
      (c.map (fun p => p.2 * p.2)).sum - 2 * m * (c.map (fun p => p.1 * p.2)).sum
        - 2 * b * (c.map Prod.snd).sum + m ^ 2 * (c.map (fun p => p.1 * p.1)).sum
        + 2 * m * b * (c.map Prod.fst).sum + (c.length : ℚ) * b ^ 2 := by
  induction c with
  | nil => simp
  | cons p c ih =>
    simp only [List.map_cons, List.sum_cons, List.length_cons, ih]
    push_cast
    ring

/-- The total sum of squares about `yBar`, expanded. -/
theorem ssTot_expand (c : List (ℚ × ℚ)) (yBar : ℚ) :
    (c.map (fun p => (p.2 - yBar) * (p.2 - yBar))).sum =
      (c.map (fun p => p.2 * p.2)).sum - 2 * yBar * (c.map Prod.snd).sum
        + (c.length : ℚ) * yBar ^ 2 := by
  induction c with
  | nil => simp
  | cons p c ih =>
    simp only [List.map_cons, List.sum_cons, List.length_cons, ih]
    push_cast
    ring

/-- The quadratic form of the design matrix over the rationals is non-negative. -/
theorem design_form_nonneg_rat (c : List (ℚ × ℚ)) (dm db : ℚ) :
    0 ≤ dm ^ 2 * (c.map (fun p => p.1 * p.1)).sum + 2 * dm * db * (c.map Prod.fst).sum
        + (c.length : ℚ) * db ^ 2 := by
  have e : (c.map (fun p => (dm * p.1 + db) ^ 2)).sum =
      dm ^ 2 * (c.map (fun p => p.1 * p.1)).sum + 2 * dm * db * (c.map Prod.fst).sum
        + (c.length : ℚ) * db ^ 2 := by
    induction c with
    | nil => simp
    | cons p c ih =>
      simp only [List.map_cons, List.sum_cons, List.length_cons, ih]
      push_cast
      ring
  rw [← e]
  apply List.sum_nonneg
  intro z hz
  obtain ⟨p, -, rfl⟩ := List.mem_map.mp hz
  positivity

theorem ssRes_nonneg (c : List (ℚ × ℚ)) (m b : ℚ) :
    0 ≤ (c.map (fun p => (p.2 - (m * p.1 + b)) * (p.2 - (m * p.1 + b)))).sum := by
  apply List.sum_nonneg
  intro z hz
  obtain ⟨p, -, rfl⟩ := List.mem_map.mp hz
  exact mul_self_nonneg _

/-- C18: a non-null result of `computeRegression` has `0 ≤ r2 ≤ 1`; the residual sum of
squares of the fitted line is at most the total sum of squares about the mean of the
contributing samples. -/
theorem computeRegression_r2_bounds (t arr : List JSVal) (range : JSVal × JSVal)
    (r : Regression) (h : computeRegression t arr range = some r) :
    0 ≤ r.r2 ∧ r.r2 ≤ 1 ∧
    ((contributing t arr range.1 range.2).map
        (fun p => (p.2 - (r.m * p.1 + r.b)) * (p.2 - (r.m * p.1 + r.b)))).sum ≤
      ((contributing t arr range.1 range.2).map
        (fun p => (p.2 - ((contributing t arr range.1 range.2).map Prod.snd).sum /
            ((contributing t arr range.1 range.2).length : ℚ)) *
          (p.2 - ((contributing t arr range.1 range.2).map Prod.snd).sum /
            ((contributing t arr range.1 range.2).length : ℚ)))).sum := by
  obtain ⟨n1, n2⟩ := computeRegression_normal t arr range r h
  obtain ⟨h2, -, -⟩ := computeRegression_r2 t arr range r h
  obtain ⟨hn, -, -, -⟩ := computeRegression_eq_some t arr range r h
  obtain ⟨i1, -, -, -, -, i6⟩ := regLoop_spec t arr range.1 range.2
  rw [i1] at hn
  have hq := design_form_nonneg_rat (contributing t arr range.1 range.2) (-r.m)
    ((regLoop t arr range.1 range.2).yBar - r.b)
  have hres := ssRes_nonneg (contributing t arr range.1 range.2) r.m r.b
  have eT := ssTot_expand (contributing t arr range.1 range.2) (regLoop t arr range.1 range.2).yBar
  have eR := ssRes_expand (contributing t arr range.1 range.2) r.m r.b
  have hn0 : ((contributing t arr range.1 range.2).length : ℚ) ≠ 0 := by
    have : 0 < (contributing t arr range.1 range.2).length := by omega
    positivity
  have hy : ((contributing t arr range.1 range.2).map Prod.snd).sum /
      ((contributing t arr range.1 range.2).length : ℚ) = (regLoop t arr range.1 range.2).yBar := by
    rw [div_eq_iff hn0]; exact i6.symm
  rw [hy]
  generalize (regLoop t arr range.1 range.2).yBar = yBar at *
  generalize (contributing t arr range.1 range.2) = c at *
  generalize (c.map (fun p => (p.2 - yBar) * (p.2 - yBar))).sum = ssTot at *
  generalize (c.map (fun p => (p.2 - (r.m * p.1 + r.b)) * (p.2 - (r.m * p.1 + r.b)))).sum = ssRes
    at *
  have hle : ssRes ≤ ssTot := by
    have p1 := congrArg (fun z => (-r.m) * z) n1
    have p2 := congrArg (fun z => (yBar - r.b) * z) n2
    simp only [] at p1 p2
    rw [eT, eR]
    linarith [hq, p1, p2]
  refine ⟨?_, ?_, hle⟩
  · rw [h2]
    split_ifs with hpos
    · have : ssRes / ssTot ≤ 1 := (div_le_one hpos).mpr hle
      linarith
    · norm_num
  · rw [h2]
    split_ifs with hpos
    · have : 0 ≤ ssRes / ssTot := div_nonneg hres hpos.le
      linarith
    · exact le_refl 1

/-- C18 on `t = [0, 1, 2, 3]`, `y = [1, 3, 2, 4]` over `[0, 3]`: the fit is `m = 4/5`,
`b = 13/10` with `r2 = 16/25`. -/
theorem computeRegression_r2_bounds_witness :
    computeRegression [.ofRat 0, .ofRat 1, .ofRat 2, .ofRat 3]
        [.ofRat 1, .ofRat 3, .ofRat 2, .ofRat 4] (.ofRat 0, .ofRat 3) =
      some { m := 4 / 5, b := 13 / 10, r2 := 16 / 25, xMin := .ofRat 0, xMax := .ofRat 3 } ∧
    (0 : ℚ) ≤ 16 / 25 ∧ (16 / 25 : ℚ) ≤ 1 := by
  have heval : computeRegression [.ofRat 0, .ofRat 1, .ofRat 2, .ofRat 3]
      [.ofRat 1, .ofRat 3, .ofRat 2, .ofRat 4] (.ofRat 0, .ofRat 3) =
      some { m := 4 / 5, b := 13 / 10, r2 := 16 / 25, xMin := .ofRat 0, xMax := .ofRat 3 } := by
    norm_num [computeRegression, regLoop, resLoop, regStep, resStep, sample_ofRat]
  have hb := computeRegression_r2_bounds _ _ _ _ heval
  exact ⟨heval, hb.1, hb.2.1⟩

/-! ## Theorems: full extents -/

theorem Bounds.congr {acc : JSNum × JSNum} {P Q : ℚ → Prop} (h : Bounds acc P)
    (hPQ : ∀ z, P z ↔ Q z) : Bounds acc Q := by
  rcases h with ⟨h1, h2⟩ | ⟨lo, hi, h1, h2, h3, h4⟩
  · exact Or.inl ⟨h1, fun q hq => h2 q ((hPQ q).mpr hq)⟩
  · exact Or.inr ⟨lo, hi, h1, (hPQ lo).mp h2, (hPQ hi).mp h3,
      fun q hq => h4 q ((hPQ q).mpr hq)⟩

/-- Feeding one more value `q` to `Math.min` and `Math.max` keeps the running extremes. -/
theorem Bounds.step {acc : JSNum × JSNum} {P : ℚ → Prop} (h : Bounds acc P) (q : ℚ) :
    Bounds (mathMin acc.1 (.fin q), mathMax acc.2 (.fin q)) (fun z => P z ∨ z = q) := by
  rcases h with ⟨h1, h2⟩ | ⟨lo, hi, h1, h2, h3, h4⟩
  · subst h1
    refine Or.inr ⟨q, q, rfl, Or.inr rfl, Or.inr rfl, ?_⟩
    rintro z (hz | rfl)
    · exact absurd hz (h2 z)
    · exact ⟨le_refl _, le_refl _⟩
  · subst h1
    refine Or.inr ⟨min lo q, max hi q, rfl, ?_, ?_, ?_⟩
    · rcases min_choice lo q with e | e
      · rw [e]; exact Or.inl h2
      · rw [e]; exact Or.inr rfl
    · rcases max_choice hi q with e | e
      · rw [e]; exact Or.inl h3
      · rw [e]; exact Or.inr rfl
    · rintro z (hz | rfl)
      · exact ⟨le_trans (min_le_left _ _) (h4 z hz).1, le_trans (h4 z hz).2 (le_max_left _ _)⟩
      · exact ⟨min_le_right _ _, le_max_right _ _⟩

/-- The running extremes are ordered once a value has been seen. -/
theorem Bounds.le {P : ℚ → Prop} {lo hi : ℚ} (h : Bounds (JSNum.fin lo, JSNum.fin hi) P) :
    lo ≤ hi := by
  rcases h with ⟨h1, -⟩ | ⟨lo2, hi2, h1, h2, -, h4⟩
  · cases h1
  · cases h1
    exact (h4 lo h2).2

theorem extentsStep_fin (acc : JSNum × JSNum) (q : ℚ) :
    extentsStep acc (.number (.fin q)) = (mathMin acc.1 (.fin q), mathMax acc.2 (.fin q)) := by
  simp [extentsStep, isNumber, isFinite, toNumber]

theorem extentsStep_skip (acc : JSNum × JSNum) (v : JSVal) (h : ∀ q, v ≠ .number (.fin q)) :
    extentsStep acc v = acc := by
  cases v with
  | number n =>
    cases n with
    | fin q => exact absurd rfl (h q)
    | nan => simp [extentsStep, isNumber, isFinite, toNumber]
    | posInf => simp [extentsStep, isNumber, isFinite, toNumber]
    | negInf => simp [extentsStep, isNumber, isFinite, toNumber]
  | null => simp [extentsStep, isNumber]
  | bool b => simp [extentsStep, isNumber]

/-- The inner loop of `computeFullExtents` over one series. -/
theorem extents_inner (arr : List JSVal) (acc : JSNum × JSNum) (P : ℚ → Prop)
    (h : Bounds acc P) :
    Bounds (arr.foldl extentsStep acc) (fun z => P z ∨ z ∈ finiteNumbers arr) := by
  induction arr generalizing acc P with
  | nil => exact h.congr (fun z => by simp [finiteNumbers])
  | cons v arr ih =>
    rw [List.foldl_cons]
    by_cases hv : ∃ q, v = .number (.fin q)
    · obtain ⟨q, rfl⟩ := hv
      rw [extentsStep_fin]
      refine (ih _ _ (h.step q)).congr (fun z => ?_)
      simp only [finiteNumbers, List.filterMap_cons, List.mem_cons]
      tauto
    · have hv2 : ∀ q, v ≠ .number (.fin q) := fun q hq => hv ⟨q, hq⟩
      rw [extentsStep_skip acc v hv2]
      refine (ih _ _ h).congr (fun z => ?_)
      have : finiteNumbers (v :: arr) = finiteNumbers arr := by
        cases v with
        | number n =>
          cases n with
          | fin q => exact absurd rfl (hv2 q)
          | nan => simp [finiteNumbers]
          | posInf => simp [finiteNumbers]
          | negInf => simp [finiteNumbers]
        | null => simp [finiteNumbers]
        | bool b => simp [finiteNumbers]
      rw [this]

/-- The outer loop of `computeFullExtents` over all series. -/
theorem extents_outer (series : List (String × List JSVal)) (acc : JSNum × JSNum)
    (P : ℚ → Prop) (h : Bounds acc P) :
    Bounds (series.foldl (fun acc p => p.2.foldl extentsStep acc) acc)
      (fun z => P z ∨ z ∈ series.flatMap (fun p => finiteNumbers p.2)) := by
  induction series generalizing acc P with
  | nil => exact h.congr (fun z => by simp)
  | cons p series ih =>
    rw [List.foldl_cons]
    refine (ih _ _ (extents_inner p.2 acc P h)).congr (fun z => ?_)
    simp only [List.flatMap_cons, List.mem_append]
    tauto

/-- The extremes found by the loops of `computeFullExtents` are those of the finite
numeric samples of all series. -/
theorem extents_bounds (u : AppState) :
    Bounds ((match u.data with
        | some d => d.series
        | none => []).foldl
          (fun (acc : JSNum × JSNum) (p : String × List JSVal) => p.2.foldl extentsStep acc)
        (JSNum.posInf, JSNum.negInf))
      (fun z => z ∈ finiteSamples u) := by
  have h0 : Bounds (JSNum.posInf, JSNum.negInf) (fun _ => False) :=
    Or.inl ⟨rfl, fun _ h => h⟩
  refine (extents_outer _ _ _ h0).congr (fun z => ?_)
  cases hd : u.data <;> simp [finiteSamples, hd]

/-- The padding `(yMax - yMin) * 0.08 || 1` for ordered extremes: 8% of the span when the
span is positive, else `1`. -/
theorem yPad_eq (lo hi : ℚ) (h : lo ≤ hi) :
    (if (hi - lo) * (8 / 100) = 0 then (1 : ℚ) else (hi - lo) * (8 / 100)) =
      if hi > lo then 8 / 100 * (hi - lo) else 1 := by
  by_cases hlt : hi > lo
  · have : (hi - lo) * (8 / 100) ≠ 0 := by
      have : 0 < hi - lo := sub_pos.mpr hlt
      positivity
    rw [if_neg this, if_pos hlt]
    ring
  · have e : hi = lo := le_antisymm (not_lt.mp hlt) h
    rw [if_neg hlt, e]
    simp

/-- The value of `computeFullExtents` on a dataset with a non-empty `t`, in terms of the
pair of extremes left by its loops. -/
theorem computeFullExtents_of_head (u : AppState) (first last : JSVal)
    (h1 : (dataT u.data).head? = some first) (h2 : (dataT u.data).getLast? = some last) :
    computeFullExtents u =
      (match (match u.data with
          | some d => d.series
          | none => []).foldl
            (fun (acc : JSNum × JSNum) (p : String × List JSVal) => p.2.foldl extentsStep acc)
          (JSNum.posInf, JSNum.negInf) with
        | (.fin lo, .fin hi) =>
          { xMin := first, xMax := last,
            yMin := lo - (if (hi - lo) * (8 / 100) = 0 then 1 else (hi - lo) * (8 / 100)),
            yMax := hi + (if (hi - lo) * (8 / 100) = 0 then 1 else (hi - lo) * (8 / 100)) }
        | _ =>
          { xMin := first, xMax := last, yMin := -1 - 8 / 50, yMax := 1 + 8 / 50 }) := by
  unfold computeFullExtents
  simp only [h1, h2]
  split
  · simp_all
  · simp_all
    norm_num

/-- The Y range of the full extents when `t` is non-empty and some finite numeric sample
exists: the extremes `lo ≤ hi` of those samples, padded. -/
theorem computeFullExtents_y (u : AppState) (ht : dataT u.data ≠ [])
    (hs : finiteSamples u ≠ []) :
    ∃ lo hi, (∀ v ∈ finiteSamples u, lo ≤ v ∧ v ≤ hi) ∧
      (computeFullExtents u).yMin = lo - (if hi > lo then 8 / 100 * (hi - lo) else 1) ∧
      (computeFullExtents u).yMax = hi + (if hi > lo then 8 / 100 * (hi - lo) else 1) := by
  obtain ⟨first, h1⟩ : ∃ first, (dataT u.data).head? = some first := by
    cases hl : dataT u.data with
    | nil => exact absurd hl ht
    | cons x l => exact ⟨x, rfl⟩
  obtain ⟨last, h2⟩ : ∃ last, (dataT u.data).getLast? = some last := by
    cases hl : (dataT u.data).getLast? with
    | none => exact absurd (List.getLast?_eq_none_iff.mp hl) ht
    | some x => exact ⟨x, rfl⟩
  have hb := extents_bounds u
  rcases hb with ⟨-, hnone⟩ | ⟨lo, hi, hacc, hlo, hhi, hall⟩
  · obtain ⟨q, hq⟩ := List.exists_mem_of_ne_nil _ hs
    exact absurd hq (hnone q)
  · refine ⟨lo, hi, hall, ?_, ?_⟩
    · rw [computeFullExtents_of_head u first last h1 h2, hacc]
      simp only [yPad_eq lo hi (hall lo hlo).2]
    · rw [computeFullExtents_of_head u first last h1 h2, hacc]
      simp only [yPad_eq lo hi (hall lo hlo).2]

/-- C12: for a dataset with a non-empty `t` and at least one finite numeric sample,
`computeFullExtents` sets `full.xMin = t[0]`, `full.xMax = t[t.length - 1]`,
`full.yMin = lo - pad` and `full.yMax = hi + pad`, where `lo` and `hi` are the least and
the greatest finite numeric sample over all series and `pad` is 8% of `hi - lo` when
`hi > lo` and `1` otherwise; the visible set has no influence. -/
theorem computeFullExtents_spec (u : AppState) (ht : dataT u.data ≠ [])
    (hs : finiteSamples u ≠ []) :
    ∃ first last lo hi,
      (dataT u.data).head? = some first ∧ (dataT u.data).getLast? = some last ∧
      lo ∈ finiteSamples u ∧ hi ∈ finiteSamples u ∧
      (∀ v ∈ finiteSamples u, lo ≤ v ∧ v ≤ hi) ∧
      computeFullExtents u =
        { xMin := first, xMax := last,
          yMin := lo - (if hi > lo then 8 / 100 * (hi - lo) else 1),
          yMax := hi + (if hi > lo then 8 / 100 * (hi - lo) else 1) } ∧
      ∀ visible : List String,
        computeFullExtents { u with visible := visible } = computeFullExtents u := by
  obtain ⟨first, h1⟩ : ∃ first, (dataT u.data).head? = some first := by
    cases hl : dataT u.data with
    | nil => exact absurd hl ht
    | cons x l => exact ⟨x, rfl⟩
  obtain ⟨last, h2⟩ : ∃ last, (dataT u.data).getLast? = some last := by
    cases hl : (dataT u.data).getLast? with
    | none => exact absurd (List.getLast?_eq_none_iff.mp hl) ht
    | some x => exact ⟨x, rfl⟩
  have hb := extents_bounds u
  have he := computeFullExtents_of_head u first last h1 h2
  rcases hb with ⟨-, hnone⟩ | ⟨lo, hi, hacc, hlo, hhi, hall⟩
  · obtain ⟨q, hq⟩ := List.exists_mem_of_ne_nil _ hs
    exact absurd hq (hnone q)
  · refine ⟨first, last, lo, hi, h1, h2, hlo, hhi, hall, ?_, fun _ => rfl⟩
    rw [he, hacc]
    simp only [yPad_eq lo hi (hall lo hlo).2]

/-- C12 on `t = [0, 10]` with the series `a = [1, null, 3]` and `b = [2, 5]`, of which only
`b` is visible: the extents are `[0, 10]` by `[1 - 0.32, 5 + 0.32]`. -/
theorem computeFullExtents_spec_witness :
    computeFullExtents { AppState.init with
        data := some ⟨[.ofRat 0, .ofRat 10],
          [("a", [.ofRat 1, .null, .ofRat 3]), ("b", [.ofRat 2, .ofRat 5])]⟩,
        visible := ["b"] } =
      { xMin := .ofRat 0, xMax := .ofRat 10, yMin := 1 - 8 / 25, yMax := 5 + 8 / 25 } := by
  obtain ⟨first, last, lo, hi, h1, h2, hlo, hhi, hall, he, -⟩ := computeFullExtents_spec
    { AppState.init with
        data := some ⟨[.ofRat 0, .ofRat 10],
          [("a", [.ofRat 1, .null, .ofRat 3]), ("b", [.ofRat 2, .ofRat 5])]⟩,
        visible := ["b"] }
    (by simp [dataT, AppState.init]) (by simp [finiteSamples, finiteNumbers, AppState.init])
  have hf : finiteSamples { AppState.init with
        data := some ⟨[.ofRat 0, .ofRat 10],
          [("a", [.ofRat 1, .null, .ofRat 3]), ("b", [.ofRat 2, .ofRat 5])]⟩,
        visible := ["b"] } = [1, 3, 2, 5] := by
    simp [finiteSamples, finiteNumbers, AppState.init]
  rw [hf] at hlo hhi hall
  have hlo1 : lo = 1 := by
    have := (hall 1 (by simp)).1
    simp only [List.mem_cons, List.mem_nil_iff, or_false] at hlo
    rcases hlo with rfl | rfl | rfl | rfl <;> first | rfl | (norm_num at this)
  have hhi5 : hi = 5 := by
    have := (hall 5 (by simp)).2
    simp only [List.mem_cons, List.mem_nil_iff, or_false] at hhi
    rcases hhi with rfl | rfl | rfl | rfl <;> first | rfl | (norm_num at this)
  simp only [dataT, AppState.init, List.head?_cons, List.getLast?_cons_cons,
    List.getLast?_singleton, Option.some.injEq] at h1 h2
  rw [he, ← h1, ← h2, hlo1, hhi5]
  norm_num

/-- The Y range of the full extents is never degenerate: the padding is positive. -/
theorem computeFullExtents_yMin_lt_yMax (u : AppState) :
    (computeFullExtents u).yMin < (computeFullExtents u).yMax := by
  cases h1 : (dataT u.data).head? with
  | none =>
    unfold computeFullExtents
    simp only [h1]
    norm_num
  | some first =>
    cases h2 : (dataT u.data).getLast? with
    | none =>
      unfold computeFullExtents
      simp only [h1, h2]
      norm_num
    | some last =>
      rw [computeFullExtents_of_head u first last h1 h2]
      have hb := extents_bounds u
      rcases hb with ⟨hacc, -⟩ | ⟨lo, hi, hacc, hlo, hhi, hall⟩
      · rw [hacc]
        norm_num
      · rw [hacc]
        have hle : lo ≤ hi := (hall lo hlo).2
        simp only [yPad_eq lo hi hle]
        split_ifs with hlt
        · have : 0 < hi - lo := sub_pos.mpr hlt
          linarith
        · linarith

/-- After a load the viewport always has `yMax > yMin`. -/
theorem loadViewport_y (u u1 : AppState) (h : loadViewport u = some u1) :
    u1.view.yMax > u1.view.yMin := by
  unfold loadViewport at h
  cases hr : (computeFullExtents u).toRect? with
  | none => rw [hr] at h; cases h
  | some r =>
    rw [hr] at h
    simp only [Option.map_some', Option.some.injEq] at h
    subst h
    have hy := computeFullExtents_yMin_lt_yMax u
    unfold Extents.toRect? at hr
    split at hr
    · cases hr
      exact hy
    · cases hr

/-- C11 at the dataset `t = [5]`, `y = [1]` (a run with a single sample):
`computeFullExtents` sets `full = { xMin: 5, xMax: 5, yMin: 0, yMax: 2 }` and
`setViewportToFull` copies it, so the viewport has `xMax = xMin` and the invariant
`xMax > xMin` fails, while `yMax > yMin` holds.  `dataToPx` then evaluates
`(5 - 5) / (5 - 5)`, a division by zero (`NaN` in JavaScript, `0 / 0` in the model). -/
theorem loadViewport_single_timestamp :
    loadViewport { AppState.init with
        data := some ⟨[.ofRat 5], [("y", [.ofRat 1])]⟩, visible := ["y"] } =
      some { AppState.init with
        data := some ⟨[.ofRat 5], [("y", [.ofRat 1])]⟩, visible := ["y"],
        view := ⟨5, 5, 0, 2, ⟨5, 5, 0, 2⟩⟩ } ∧
    ¬ ((⟨5, 5, 0, 2, ⟨5, 5, 0, 2⟩⟩ : State).xMax > (⟨5, 5, 0, 2, ⟨5, 5, 0, 2⟩⟩ : State).xMin) ∧
    dataToPx ⟨5, 5, 0, 2, ⟨5, 5, 0, 2⟩⟩ 5 1 100 100 = (0 / 0 * 100, 50) := by
  refine ⟨?_, by norm_num, ?_⟩
  · have he : computeFullExtents { AppState.init with
        data := some ⟨[.ofRat 5], [("y", [.ofRat 1])]⟩, visible := ["y"] } =
        { xMin := .ofRat 5, xMax := .ofRat 5, yMin := 0, yMax := 2 } := by
      norm_num [computeFullExtents, dataT, AppState.init, extentsStep, isNumber, isFinite,
        toNumber, mathMin, mathMax]
    unfold loadViewport
    rw [he]
    simp only [Extents.toRect?, Option.map_some', setViewportToFull, AppState.init]
  · norm_num [dataToPx]

/-! ## Theorems: zoom to selection -/

theorem mem_of_lookup_eq_some (l : List (String × List JSVal)) (k : String) (v : List JSVal)
    (h : l.lookup k = some v) : (k, v) ∈ l := by
  induction l with
  | nil => simp at h
  | cons p l ih =>
    obtain ⟨k2, v2⟩ := p
    rw [List.lookup_cons] at h
    by_cases hk : (k == k2) = true
    · rw [hk] at h
      simp only [Option.some.injEq] at h
      subst h
      have : k = k2 := by simpa using hk
      subst this
      exact List.mem_cons_self _ _
    · simp only [Bool.not_eq_true] at hk
      rw [hk] at h
      exact List.mem_cons_of_mem _ (ih h)

/-- The inner loop of `zoomToSelection` over the samples of one series. -/
theorem zoom_inner (xMin xMax : JSVal) (l : List (JSVal × JSVal)) (acc : JSNum × JSNum)
    (P : ℚ → Prop) (h : Bounds acc P) :
    Bounds (l.foldl (zoomStep xMin xMax) acc)
      (fun z => P z ∨ z ∈ (l.filterMap (fun p => sample xMin xMax p.1 p.2)).map Prod.snd) := by
  induction l generalizing acc P with
  | nil => exact h.congr (fun z => by simp)
  | cons p l ih =>
    rw [List.foldl_cons, List.filterMap_cons]
    cases hs : sample xMin xMax p.1 p.2 with
    | none =>
      simp only [zoomStep, hs]
      exact ih _ _ h
    | some v =>
      obtain ⟨x, y⟩ := v
      simp only [zoomStep, hs]
      refine (ih _ _ (h.step y)).congr (fun z => ?_)
      simp only [List.map_cons, List.mem_cons]
      tauto

/-- The outer loop of `zoomToSelection` over a list of series names. -/
theorem zoom_outer (d : Dataset) (xMin xMax : JSVal) (names : List String)
    (acc : JSNum × JSNum) (P : ℚ → Prop) (h : Bounds acc P) :
    Bounds (names.foldl (fun acc name =>
        (List.zip d.t ((d.series.lookup name).getD [])).foldl (zoomStep xMin xMax) acc) acc)
      (fun z => P z ∨ ∃ name ∈ names,
        z ∈ (contributing d.t ((d.series.lookup name).getD []) xMin xMax).map Prod.snd) := by
  induction names generalizing acc P with
  | nil => exact h.congr (fun z => by simp)
  | cons n names ih =>
    rw [List.foldl_cons]
    refine (ih _ _ (zoom_inner xMin xMax _ acc P h)).congr (fun z => ?_)
    simp only [List.mem_cons, exists_eq_or_imp, contributing]
    tauto

/-- A sample that contributes to `zoomToSelection` is one of the finite numeric samples of
the dataset when every series holds finite numbers only. -/
theorem zoom_value_mem (u : AppState) (d : Dataset) (hd : u.data = some d)
    (hnum : ∀ p ∈ d.series, ∀ v ∈ p.2, ∃ q, v = JSVal.ofRat q)
    (xMin xMax : JSVal) (name : String) (z : ℚ)
    (hz : z ∈ (contributing d.t ((d.series.lookup name).getD []) xMin xMax).map Prod.snd) :
    z ∈ finiteSamples u := by
  obtain ⟨p, hp, rfl⟩ := List.mem_map.mp hz
  unfold contributing at hp
  obtain ⟨xy, hxy, hs⟩ := List.mem_filterMap.mp hp
  obtain ⟨xq, yq⟩ := p
  obtain ⟨-, hy, -, -⟩ := (sample_eq_some_iff _ _ _ _ _ _).mp hs
  have hmem : xy.2 ∈ (d.series.lookup name).getD [] := (List.of_mem_zip hxy).2
  cases hl : d.series.lookup name with
  | none => rw [hl] at hmem; simp at hmem
  | some arr =>
    rw [hl] at hmem
    simp only [Option.getD_some] at hmem
    have hin := mem_of_lookup_eq_some _ _ _ hl
    obtain ⟨q, hq⟩ := hnum _ hin _ hmem
    rw [hq] at hy
    simp only [toNumber, JSNum.fin.injEq] at hy
    subst hy
    simp only [finiteSamples, hd, List.mem_flatMap]
    refine ⟨(name, arr), hin, ?_⟩
    simp only [finiteNumbers, List.mem_filterMap]
    exact ⟨xy.2, hmem, by rw [hq]⟩

/-- The extremes found by `zoomToSelection` are those of the in-range samples of the
visible series. -/
theorem zoomLoop_bounds (d : Dataset) (visible : List String) (xMin xMax : ℚ) :
    Bounds (zoomLoop d visible xMin xMax)
      (fun z => ∃ name ∈ (d.series.map Prod.fst).filter (fun n => decide (n ∈ visible)),
        z ∈ (contributing d.t ((d.series.lookup name).getD []) (.ofRat xMin)
          (.ofRat xMax)).map Prod.snd) := by
  have h0 : Bounds (JSNum.posInf, JSNum.negInf) (fun _ => False) :=
    Or.inl ⟨rfl, fun _ h => h⟩
  unfold zoomLoop
  exact (zoom_outer d _ _ _ _ _ h0).congr (fun z => by simp)

/-- The viewport that `zoomToSelection` leaves for a selection `[xLo, xHi]` with
`xLo < xHi` on a loaded dataset. -/
theorem zoomToSelection_view (u : AppState) (d : Dataset) (xLo xHi : ℚ)
    (hd : u.data = some d) (hsel : u.selectionRange = some (xLo, xHi)) (hlt : xLo < xHi) :
    (zoomToSelection u).view =
      (match zoomLoop d u.visible xLo xHi with
        | (.fin yMin, .fin yMax) =>
          if yMax > yMin then
            { u.view with
              xMin := xLo, xMax := xHi,
              yMin := yMin - (if (yMax - yMin) * (8 / 100) = 0 then 1
                else (yMax - yMin) * (8 / 100)),
              yMax := yMax + (if (yMax - yMin) * (8 / 100) = 0 then 1
                else (yMax - yMin) * (8 / 100)) }
          else { u.view with xMin := xLo, xMax := xHi }
        | _ => { u.view with xMin := xLo, xMax := xHi }) := by
  unfold zoomToSelection
  simp only [hsel, hd, gt_iff_lt, not_lt, not_le.mpr hlt, if_false]

/-- C13: on a dataset whose series hold finite numbers only, for a selection `[xLo, xHi]`
with `xLo < xHi` inside the X interval of the full extents computed by
`computeFullExtents`, and a viewport inside those extents, `zoomToSelection` leaves the
viewport inside the full extents on both axes. -/
theorem zoomToSelection_within (u : AppState) (d : Dataset) (xLo xHi : ℚ)
    (hd : u.data = some d) (hsel : u.selectionRange = some (xLo, xHi)) (hlt : xLo < xHi)
    (hnum : ∀ p ∈ d.series, ∀ v ∈ p.2, ∃ q, v = JSVal.ofRat q)
    (hfull : (computeFullExtents u).toRect? = some u.view.full)
    (hselx : u.view.full.xMin ≤ xLo ∧ xHi ≤ u.view.full.xMax)
    (hin : u.view.full.xMin ≤ u.view.xMin ∧ u.view.xMax ≤ u.view.full.xMax ∧
      u.view.full.yMin ≤ u.view.yMin ∧ u.view.yMax ≤ u.view.full.yMax) :
    (zoomToSelection u).view.full = u.view.full ∧
    u.view.full.xMin ≤ (zoomToSelection u).view.xMin ∧
    (zoomToSelection u).view.xMax ≤ u.view.full.xMax ∧
    u.view.full.yMin ≤ (zoomToSelection u).view.yMin ∧
    (zoomToSelection u).view.yMax ≤ u.view.full.yMax := by
  rw [zoomToSelection_view u d xLo xHi hd hsel hlt]
  have hb := zoomLoop_bounds d u.visible xLo xHi
  rcases hb with ⟨hacc, -⟩ | ⟨lo, hi, hacc, hlo, hhi, -⟩
  · rw [hacc]
    exact ⟨rfl, hselx.1, hselx.2, hin.2.2.1, hin.2.2.2⟩
  · rw [hacc]
    simp only []
    by_cases hgt : hi > lo
    · rw [if_pos hgt]
      refine ⟨rfl, hselx.1, hselx.2, ?_, ?_⟩ <;> simp only []
      all_goals
        obtain ⟨n1, -, hz1⟩ := hlo
        obtain ⟨n2, -, hz2⟩ := hhi
        have g1 := zoom_value_mem u d hd hnum _ _ n1 lo hz1
        have g2 := zoom_value_mem u d hd hnum _ _ n2 hi hz2
        have hne : (dataT u.data) ≠ [] := by
          rw [hd]
          simp only [dataT]
          intro he
          rw [he] at hz1
          simp [contributing] at hz1
        obtain ⟨LO, HI, hall, hy1, hy2⟩ :=
          computeFullExtents_y u hne (List.ne_nil_of_mem g1)
        unfold Extents.toRect? at hfull
        split at hfull
        swap
        · cases hfull
        simp only [Option.some.injEq] at hfull
        rw [← hfull]
        simp only [hy1, hy2]
        have b1 := hall lo g1
        have b2 := hall hi g2
        have hG : HI > LO := lt_of_le_of_lt b1.1 (lt_of_lt_of_le hgt b2.2)
        rw [if_pos hG]
        have hl : (hi - lo) * (8 / 100) ≠ 0 := by
          have : 0 < hi - lo := sub_pos.mpr hgt
          positivity
        rw [if_neg hl]
        linarith [b1.1, b1.2, b2.1, b2.2]
    · rw [if_neg hgt]
      exact ⟨rfl, hselx.1, hselx.2, hin.2.2.1, hin.2.2.2⟩

/-- C13 on the sample run: the selection `[1, 2]` covers the samples `5` and `2`, the
viewport becomes `[1, 2]` by `[2 - 0.24, 5 + 0.24]`, inside the full extents. -/
theorem zoomToSelection_within_witness :
    (zoomToSelection AppState.sampleRun).view.full = AppState.sampleRun.view.full ∧
    AppState.sampleRun.view.full.xMin ≤ (zoomToSelection AppState.sampleRun).view.xMin ∧
    (zoomToSelection AppState.sampleRun).view.xMax ≤ AppState.sampleRun.view.full.xMax ∧
    AppState.sampleRun.view.full.yMin ≤ (zoomToSelection AppState.sampleRun).view.yMin ∧
    (zoomToSelection AppState.sampleRun).view.yMax ≤ AppState.sampleRun.view.full.yMax := by
  have he : computeFullExtents AppState.sampleRun =
      { xMin := .ofRat 0, xMax := .ofRat 3, yMin := 17 / 25, yMax := 133 / 25 } := by
    norm_num [computeFullExtents, dataT, AppState.sampleRun, AppState.init, extentsStep,
      isNumber, isFinite, toNumber, mathMin, mathMax]
  refine zoomToSelection_within AppState.sampleRun
    ⟨[.ofRat 0, .ofRat 1, .ofRat 2, .ofRat 3], [("y", [.ofRat 1, .ofRat 5, .ofRat 2, .ofRat 4])]⟩
    1 2 rfl rfl (by norm_num) ?_ ?_ ?_ ?_
  · intro p hp v hv
    simp only [List.mem_singleton] at hp
    subst hp
    simp only [List.mem_cons, List.mem_nil_iff, or_false] at hv
    rcases hv with rfl | rfl | rfl | rfl <;> exact ⟨_, rfl⟩
  · rw [he]
    rfl
  · norm_num [AppState.sampleRun]
  · norm_num [AppState.sampleRun]

/-! ## Theorems: selection drag -/

theorem clearSelectionAndReset_selectionRange (u : AppState) :
    (clearSelectionAndReset u).selectionRange = none := rfl

theorem clearSelectionAndReset_view (u : AppState) :
    (clearSelectionAndReset u).view = setViewportToFull u.view := rfl

/-- C14 as stated fails for a release that ends no drag: on the sample run with the select
tool, the committed selection `[1, 2]`, no drag rectangle and `state.dragging = false` (a
release after a press that was not made with the primary button), the handler returns at
its first line and the selection range is still `[1, 2]`. -/
theorem pointerUp_not_dragging_counterexample :
    AppState.sampleRun.tool = .select ∧ AppState.sampleRun.dragRect = none ∧
    (pointerUp AppState.sampleRun 1 1000 500).selectionRange = some (1, 2) := by
  refine ⟨rfl, rfl, ?_⟩
  simp [pointerUp, AppState.sampleRun, AppState.init]

/-- C14 (amended): on a pointer release that ends a drag (`state.dragging` is set) with
the select tool, when there is no drag rectangle, or the rectangle clipped to the plot
area is at most 4 pixels wide or at most 4 pixels tall (in particular less than 4), the
selection range is `null` afterwards and the viewport equals the full extents. -/
theorem pointerUp_small_drag (u : AppState) (dpr w h : ℚ) (hdrag : u.dragging = true)
    (htool : u.tool = .select)
    (hsmall : u.dragRect = none ∨ ∃ r, u.dragRect = some r ∧
      (min (getPlotMetrics dpr w h).plotW ((r.x + r.w) - (getPlotMetrics dpr w h).marginL) -
          max 0 (r.x - (getPlotMetrics dpr w h).marginL) ≤ 4 ∨
       min (getPlotMetrics dpr w h).plotH ((r.y + r.h) - (getPlotMetrics dpr w h).marginT) -
          max 0 (r.y - (getPlotMetrics dpr w h).marginT) ≤ 4)) :
    (pointerUp u dpr w h).selectionRange = none ∧
    (pointerUp u dpr w h).view.full = u.view.full ∧
    (pointerUp u dpr w h).view.xMin = u.view.full.xMin ∧
    (pointerUp u dpr w h).view.xMax = u.view.full.xMax ∧
    (pointerUp u dpr w h).view.yMin = u.view.full.yMin ∧
    (pointerUp u dpr w h).view.yMax = u.view.full.yMax := by
  rcases hsmall with hnone | ⟨r, hr, hsz⟩
  · have e : pointerUp u dpr w h =
        clearSelectionAndReset { u with dragging := false, dragRect := none } := by
      simp [pointerUp, hdrag, htool, hnone]
    rw [e]
    exact ⟨rfl, rfl, rfl, rfl, rfl, rfl⟩
  · have hcond : ¬ (min (getPlotMetrics dpr w h).plotW
          ((r.x + r.w) - (getPlotMetrics dpr w h).marginL) -
          max 0 (r.x - (getPlotMetrics dpr w h).marginL) > 4 ∧
        min (getPlotMetrics dpr w h).plotH ((r.y + r.h) - (getPlotMetrics dpr w h).marginT) -
          max 0 (r.y - (getPlotMetrics dpr w h).marginT) > 4) := by
      rintro ⟨h1, h2⟩
      rcases hsz with h3 | h3 <;> linarith
    have e : pointerUp u dpr w h =
        clearSelectionAndReset
          { u with dragging := false, selectionRange := none, dragRect := none } := by
      simp only [pointerUp, hdrag, htool, hr, if_neg hcond]
      simp
    rw [e]
    exact ⟨rfl, rfl, rfl, rfl, rfl, rfl⟩

/-- C14 (amended) on the sample run zoomed to `[1, 2]`, with a drag in progress and a
rectangle 3 pixels wide: the selection is cleared and the viewport is reset to the full
extents `[0, 3]` by `[17/25, 133/25]`. -/
theorem pointerUp_small_drag_witness :
    (pointerUp { AppState.sampleRun with
        dragging := true, dragRect := some ⟨100, 50, 3, 100⟩,
        view := ⟨1, 2, 1, 2, ⟨0, 3, 17 / 25, 133 / 25⟩⟩ } 1 1000 500).selectionRange = none ∧
    (pointerUp { AppState.sampleRun with
        dragging := true, dragRect := some ⟨100, 50, 3, 100⟩,
        view := ⟨1, 2, 1, 2, ⟨0, 3, 17 / 25, 133 / 25⟩⟩ } 1 1000 500).view.xMin = 0 ∧
    (pointerUp { AppState.sampleRun with
        dragging := true, dragRect := some ⟨100, 50, 3, 100⟩,
        view := ⟨1, 2, 1, 2, ⟨0, 3, 17 / 25, 133 / 25⟩⟩ } 1 1000 500).view.xMax = 3 := by
  have h := pointerUp_small_drag { AppState.sampleRun with
        dragging := true, dragRect := some ⟨100, 50, 3, 100⟩,
        view := ⟨1, 2, 1, 2, ⟨0, 3, 17 / 25, 133 / 25⟩⟩ } 1 1000 500 rfl rfl
    (Or.inr ⟨⟨100, 50, 3, 100⟩, rfl, Or.inl (by norm_num [getPlotMetrics])⟩)
  exact ⟨h.1, h.2.2.1, h.2.2.2.1⟩

/-- C15 as stated fails at the threshold: on the sample run with a drag in progress and
a drag rectangle whose clipped extent is exactly 4 pixels wide and 100 pixels tall (at
least 4 in both directions), the test `xB - xA > 4` fails and the selection range is
`null` afterwards. -/
theorem pointerUp_four_pixels_counterexample :
    min (getPlotMetrics 1 1000 500).plotW ((100 + 4) - (getPlotMetrics 1 1000 500).marginL) -
        max 0 (100 - (getPlotMetrics 1 1000 500).marginL) ≥ 4 ∧
    min (getPlotMetrics 1 1000 500).plotH ((50 + 100) - (getPlotMetrics 1 1000 500).marginT) -
        max 0 (50 - (getPlotMetrics 1 1000 500).marginT) ≥ 4 ∧
    (pointerUp { AppState.sampleRun with
        dragging := true, dragRect := some ⟨100, 50, 4, 100⟩ } 1 1000 500).selectionRange =
      none := by
  refine ⟨by norm_num [getPlotMetrics], by norm_num [getPlotMetrics], ?_⟩
  have h4 : ¬ (min (getPlotMetrics 1 1000 500).plotW
        ((100 + 4) - (getPlotMetrics 1 1000 500).marginL) -
        max 0 (100 - (getPlotMetrics 1 1000 500).marginL) > 4 ∧
      min (getPlotMetrics 1 1000 500).plotH ((50 + 100) - (getPlotMetrics 1 1000 500).marginT) -
        max 0 (50 - (getPlotMetrics 1 1000 500).marginT) > 4) := by
    norm_num [getPlotMetrics]
  have e : pointerUp { AppState.sampleRun with
        dragging := true, dragRect := some ⟨100, 50, 4, 100⟩ } 1 1000 500 =
      clearSelectionAndReset { AppState.sampleRun with
        dragging := false, selectionRange := none, dragRect := none } := by
    simp only [pointerUp, AppState.sampleRun, AppState.init, if_neg h4]
    simp
  rw [e]
  rfl

/-- C15 (amended): on a pointer release that ends a drag with the select tool, for a drag
rectangle whose extent clipped to the plot area is more than 4 pixels wide and more than
4 pixels tall, the selection range is committed as `[lo, hi]` with `lo ≤ hi`, the smaller
and the larger of the data-space X values `x1`, `x2` of the clipped left and right edges
under the current viewport, which is left unchanged; for a viewport with `xMin ≤ xMax`,
`lo = x1`, `hi = x2`, `xMin ≤ lo` and `hi ≤ xMax`. -/
theorem pointerUp_commit (u : AppState) (dpr w h : ℚ) (r : DragRect)
    (hdrag : u.dragging = true) (htool : u.tool = .select) (hr : u.dragRect = some r)
    (hbig : min (getPlotMetrics dpr w h).plotW ((r.x + r.w) - (getPlotMetrics dpr w h).marginL) -
          max 0 (r.x - (getPlotMetrics dpr w h).marginL) > 4 ∧
       min (getPlotMetrics dpr w h).plotH ((r.y + r.h) - (getPlotMetrics dpr w h).marginT) -
          max 0 (r.y - (getPlotMetrics dpr w h).marginT) > 4) :
    ∃ lo hi x1 x2,
      x1 = u.view.xMin + (max 0 (r.x - (getPlotMetrics dpr w h).marginL) /
        (getPlotMetrics dpr w h).plotW) * (u.view.xMax - u.view.xMin) ∧
      x2 = u.view.xMin + (min (getPlotMetrics dpr w h).plotW
          ((r.x + r.w) - (getPlotMetrics dpr w h).marginL) /
        (getPlotMetrics dpr w h).plotW) * (u.view.xMax - u.view.xMin) ∧
      (pointerUp u dpr w h).selectionRange = some (lo, hi) ∧
      (pointerUp u dpr w h).view = u.view ∧
      lo ≤ hi ∧ lo = min x1 x2 ∧ hi = max x1 x2 ∧
      (u.view.xMin ≤ u.view.xMax →
        lo = x1 ∧ hi = x2 ∧ u.view.xMin ≤ lo ∧ hi ≤ u.view.xMax) := by
  refine ⟨_, _, _, _, rfl, rfl, ?_, ?_, min_le_max, rfl, rfl, ?_⟩
  · simp only [pointerUp, hdrag, htool, hr, if_pos hbig]
    simp [AppState.refreshStats]
  · simp only [pointerUp, hdrag, htool, hr, if_pos hbig]
    simp [AppState.refreshStats]
  · intro hv
    set xA := max 0 (r.x - (getPlotMetrics dpr w h).marginL) with hxA
    set xB := min (getPlotMetrics dpr w h).plotW
      ((r.x + r.w) - (getPlotMetrics dpr w h).marginL) with hxB
    set pw := (getPlotMetrics dpr w h).plotW with hpw
    have hA0 : 0 ≤ xA := le_max_left _ _
    have hBw : xB ≤ pw := min_le_left _ _
    have hAB : xA < xB := by linarith [hbig.1]
    have hpos : 0 < pw := by linarith
    have hspan : 0 ≤ u.view.xMax - u.view.xMin := sub_nonneg.mpr hv
    have hdA : 0 ≤ xA / pw := div_nonneg hA0 hpos.le
    have hdB : xB / pw ≤ 1 := (div_le_one hpos).mpr hBw
    have hdAB : xA / pw ≤ xB / pw := div_le_div_of_nonneg_right hAB.le hpos.le
    have h12 : u.view.xMin + xA / pw * (u.view.xMax - u.view.xMin) ≤
        u.view.xMin + xB / pw * (u.view.xMax - u.view.xMin) := by
      have := mul_le_mul_of_nonneg_right hdAB hspan
      linarith
    refine ⟨min_eq_left h12, max_eq_right h12, ?_, ?_⟩
    · rw [min_eq_left h12]
      have := mul_nonneg hdA hspan
      linarith
    · rw [max_eq_right h12]
      have := mul_le_mul_of_nonneg_right hdB hspan
      linarith

/-- C15 (amended) on the sample run with a drag in progress and a rectangle 5 pixels wide
and 100 pixels tall: the selection range becomes `[69/469, 153/938]`, inside the viewport
`[0, 3]`. -/
theorem pointerUp_commit_witness :
    (pointerUp { AppState.sampleRun with
        dragging := true, dragRect := some ⟨100, 50, 5, 100⟩ } 1 1000 500).selectionRange =
      some (69 / 469, 153 / 938) := by
  obtain ⟨lo, hi, x1, x2, h1, h2, hsel, -, -, -, -, hv⟩ :=
    pointerUp_commit { AppState.sampleRun with
        dragging := true, dragRect := some ⟨100, 50, 5, 100⟩ } 1 1000 500 ⟨100, 50, 5, 100⟩
      rfl rfl rfl (by norm_num [getPlotMetrics])
  obtain ⟨e1, e2, -, -⟩ := hv (by norm_num [AppState.sampleRun])
  rw [hsel, e1, e2, h1, h2]
  norm_num [getPlotMetrics, AppState.sampleRun]

/-! ## Theorems: formatting -/

/-- The value of `x.toFixed(1)` for `0 ≤ x < 10 ^ 21`: the digits of the integer `n`
nearest to `10 * x`, with a point before the last digit. -/
theorem toFixed1_of_nonneg (x : ℚ) (h0 : 0 ≤ x) (h1 : x < 10 ^ 21) :
    ∃ n : ℕ, (n : ℚ) ≤ x * 10 + 1 / 2 ∧ x * 10 + 1 / 2 < (n : ℚ) + 1 ∧
      toFixed1 x = some (toString (n / 10) ++ "." ++ toString (n % 10)) := by
  have hpos : 0 ≤ x * 10 + 1 / 2 := by positivity
  refine ⟨⌊x * 10 + 1 / 2⌋₊, Nat.floor_le hpos, Nat.lt_floor_add_one _, ?_⟩
  unfold toFixed1
  rw [abs_of_nonneg h0, if_neg (not_le.mpr h1)]
  simp only [if_neg (not_lt.mpr h0)]

/-- C17 as stated fails for huge counts: at `bytes = 1024 * 1024 * 10 ^ 21` the quotient
is `10 ^ 21`, where `toFixed(1)` no longer gives one decimal place but the exponential
notation of `Number::toString` (JavaScript returns `"1e+21 MB"`), which the model marks
as `none`. -/
theorem formatBytes_huge_counterexample :
    formatBytes (.ofRat (1024 * 1024 * 10 ^ 21)) = none ∧
    ¬ ∃ n : ℕ, formatBytes (.ofRat (1024 * 1024 * 10 ^ 21)) =
      some (toString (n / 10) ++ "." ++ toString (n % 10) ++ " MB") := by
  have e : formatBytes (.ofRat (1024 * 1024 * 10 ^ 21)) = none := by
    norm_num [formatBytes, isNumber, isFinite, toNumber, toFixed1]
  refine ⟨e, ?_⟩
  rintro ⟨n, hn⟩
  rw [e] at hn
  cases hn

/-- C17 (amended): for a non-negative integer byte count below `1024 * 1024 * 10 ^ 21`,
`formatBytes` returns the decimal count followed by `" B"` below 1024; below `1024 * 1024`
the quotient `bytes / 1024` rounded to one decimal place (the digits of the integer `n`
nearest to ten times the quotient, ties upward, with a point before the last digit)
followed by `" KB"`; and otherwise `bytes / (1024 * 1024)` rounded the same way followed
by `" MB"`. -/
theorem formatBytes_spec (bytes : ℕ) (hb : bytes < 1024 * 1024 * 10 ^ 21) :
    (bytes < 1024 → formatBytes (.ofRat bytes) = some (toString bytes ++ " B")) ∧
    (1024 ≤ bytes → bytes < 1024 * 1024 →
      ∃ n : ℕ, (n : ℚ) ≤ (bytes : ℚ) / 1024 * 10 + 1 / 2 ∧
        (bytes : ℚ) / 1024 * 10 + 1 / 2 < (n : ℚ) + 1 ∧
        formatBytes (.ofRat bytes) =
          some (toString (n / 10) ++ "." ++ toString (n % 10) ++ " KB")) ∧
    (1024 * 1024 ≤ bytes →
      ∃ n : ℕ, (n : ℚ) ≤ (bytes : ℚ) / (1024 * 1024) * 10 + 1 / 2 ∧
        (bytes : ℚ) / (1024 * 1024) * 10 + 1 / 2 < (n : ℚ) + 1 ∧
        formatBytes (.ofRat bytes) =
          some (toString (n / 10) ++ "." ++ toString (n % 10) ++ " MB")) := by
  have hq0 : (0 : ℚ) ≤ (bytes : ℚ) := Nat.cast_nonneg _
  have hbq : (bytes : ℚ) < 1024 * 1024 * 10 ^ 21 := by exact_mod_cast hb
  refine ⟨fun h => ?_, fun h1 h2 => ?_, fun h1 => ?_⟩
  · have hq : (bytes : ℚ) < 1024 := by exact_mod_cast h
    have habs : |(bytes : ℚ)| < 10 ^ 21 := by
      rw [abs_of_nonneg hq0]
      calc (bytes : ℚ) < 1024 := hq
        _ < 10 ^ 21 := by norm_num
    simp only [formatBytes, isNumber, isFinite, toNumber, Bool.not_true, Bool.or_self,
      Bool.false_eq_true, if_false, if_pos hq, numberToString, Rat.den_natCast,
      habs, and_self, if_true, if_neg (not_lt.mpr hq0), Rat.num_natCast, Int.natAbs_ofNat,
      Option.map_some']
  · have hq1 : ¬ (bytes : ℚ) < 1024 := by
      rw [not_lt]; exact_mod_cast h1
    have hq2 : (bytes : ℚ) < 1024 * 1024 := by exact_mod_cast h2
    obtain ⟨n, hn1, hn2, hn3⟩ := toFixed1_of_nonneg ((bytes : ℚ) / 1024) (by positivity)
      (by
        rw [div_lt_iff₀ (by norm_num)]
        calc (bytes : ℚ) < 1024 * 1024 := hq2
          _ < 10 ^ 21 * 1024 := by norm_num)
    refine ⟨n, hn1, hn2, ?_⟩
    simp only [formatBytes, isNumber, isFinite, toNumber, Bool.not_true, Bool.or_self,
      Bool.false_eq_true, if_false, if_neg hq1, if_pos hq2, hn3, Option.map_some']
  · have hq1 : ¬ (bytes : ℚ) < 1024 := by
      rw [not_lt]
      have : (1024 : ℚ) * 1024 ≤ bytes := by exact_mod_cast h1
      linarith
    have hq2 : ¬ (bytes : ℚ) < 1024 * 1024 := by
      rw [not_lt]; exact_mod_cast h1
    obtain ⟨n, hn1, hn2, hn3⟩ := toFixed1_of_nonneg ((bytes : ℚ) / (1024 * 1024))
      (by positivity)
      (by
        rw [div_lt_iff₀ (by norm_num)]
        linarith)
    refine ⟨n, hn1, hn2, ?_⟩
    simp only [formatBytes, isNumber, isFinite, toNumber, Bool.not_true, Bool.or_self,
      Bool.false_eq_true, if_false, if_neg hq1, if_neg hq2, hn3, Option.map_some']

/-- C17 (amended) at the three stated sizes: 500 gives `"500 B"`, 2048 gives `"2.0 KB"`
and `5 * 1024 * 1024` gives `"5.0 MB"`. -/
theorem formatBytes_spec_witness :
    formatBytes (.ofRat 500) = some "500 B" ∧
    formatBytes (.ofRat 2048) = some "2.0 KB" ∧
    formatBytes (.ofRat (5 * 1024 * 1024)) = some "5.0 MB" := by
  refine ⟨?_, ?_, ?_⟩
  · have h := (formatBytes_spec 500 (by norm_num)).1 (by norm_num)
    have e : ((500 : ℕ) : ℚ) = 500 := by norm_num
    rw [e] at h
    rw [h]
    rfl
  · obtain ⟨n, h1, h2, h3⟩ := (formatBytes_spec 2048 (by norm_num)).2.1 (by norm_num)
      (by norm_num)
    have e : ((2048 : ℕ) : ℚ) = 2048 := by norm_num
    rw [e] at h1 h2 h3
    have hn : n = 20 := by
      have a1 : (n : ℚ) < 21 := by norm_num at h1; linarith
      have a2 : (19 : ℚ) < n := by norm_num at h2; linarith
      have b1 : n < 21 := by exact_mod_cast a1
      have b2 : 19 < n := by exact_mod_cast a2
      omega
    subst hn
    rw [h3]
    rfl
  · obtain ⟨n, h1, h2, h3⟩ := (formatBytes_spec (5 * 1024 * 1024) (by norm_num)).2.2
      (by norm_num)
    have e : ((5 * 1024 * 1024 : ℕ) : ℚ) = 5 * 1024 * 1024 := by norm_num
    rw [e] at h1 h2 h3
    have hn : n = 50 := by
      have a1 : (n : ℚ) < 51 := by norm_num at h1; linarith
      have a2 : (49 : ℚ) < n := by norm_num at h2; linarith
      have b1 : n < 51 := by exact_mod_cast a1
      have b2 : 49 < n := by exact_mod_cast a2
      omega
    subst hn
    rw [h3]
    rfl

end FTCLogger
